import Mathlib

/-!
# Modern Ethiopian calendar: conversions and month grid

A shallow embedding of the calendar arithmetic of the date picker and calendar
components (`ModernDatePicker` and `ModernCalendar`, React and Next.js copies).

JavaScript numbers are embedded as rationals: every constant of the source
(`1724220.5`, `365.25`, `30.6001`, `1524.5`) is read as the exact decimal, and
`Math.floor` is the integer floor.

The conversion functions read a `Date` only through `getFullYear()`, `getMonth()` and
`getDate()`, so they are functions of these three fields (`JSDate`).

The grid code does arithmetic on `Date` objects. A `Date` is embedded as its local day
number (whole days since 1970-01-01), with the getters, `setDate`, `setMonth` and the
constructor defined by the abstract operations of ECMA-262 (`DayFromYear`,
`YearFromTime`, `MonthFromTime`, `DateFromTime`, `WeekDay`, `MakeDay`), the years 0..99 of
the constructor included. In the grid code the time of day, changes of the time-zone
offset and the bound of 100,000,000 days on time values are outside the model. The
remainder operator `%` of JavaScript truncates towards zero and is `Int.tmod`.

The Islamic conversion subtracts two `Date` objects, which subtracts their time values
(milliseconds since 1970-01-01 UTC), time of day and time-zone offset included. There a
`Date` is its time value, and the time value of `new Date(622, 6, 16)`, which depends on
the time zone of the host, is a parameter. The callers, which hold a `Date` as its local
day number, read both time values from a `Host`.

Strings are `String`; `replace`, `padStart` and the conversion of a whole number to a
string follow the built-ins. A property read `obj[key]` on an object literal finds the
keys of the literal and the members inherited from `Object.prototype`; `undefined` is
`none`. Name tables carry the characters of the source files.
-/

namespace ModernCal

/-! ## The conversion code (identical text in the three files that carry it) -/

/-- The local-time fields of a JavaScript `Date` that the conversion code reads:
`getFullYear()`, `getMonth()` (zero-based, January is 0) and `getDate()`. -/
structure JSDate where
  getFullYear : ℤ
  getMonth : ℤ
  getDate : ℤ
  deriving DecidableEq, Repr

/-- The object literal returned by `gregorianToEthiopian`: `year` and `month` come
out of `Math.floor`, `day` is the number `dayOfYear - (month - 1) * 30`. -/
structure EthDate where
  year : ℤ
  month : ℤ
  day : ℚ
  deriving DecidableEq, Repr

/-- Source `gregorianToJD(date)`, ModernDatePicker.js 90-102 (same text in
ModernDatePicker.jsx 104-116 and ModernCalendar.jsx 40-52). -/
def gregorianToJD (date : JSDate) : ℚ :=
  let year := date.getFullYear
  let month := date.getMonth + 1
  let day := date.getDate
  let year := if year < 0 then year + 1 else year
  let year := if month < 3 then year - 1 else year
  let month := if month < 3 then month + 12 else month
  let a : ℤ := ⌊(year : ℚ) / 100⌋
  let b : ℤ := 2 - a + ⌊(a : ℚ) / 4⌋
  (⌊(365.25 : ℚ) * ((year : ℚ) + 4716)⌋ : ℚ) + (⌊(30.6001 : ℚ) * ((month : ℚ) + 1)⌋ : ℚ)
    + (day : ℚ) + (b : ℚ) - 1524.5

/-- Source `ethiopianToJD(year, month, day)`, ModernDatePicker.js 104-108 (same text in
ModernDatePicker.jsx 118-122 and ModernCalendar.jsx 67-71). -/
def ethiopianToJD (year month : ℤ) (day : ℚ) : ℚ :=
  let jdEpoch : ℚ := 1724220.5
  let year := if year < 0 then year + 1 else year
  day + ((month : ℚ) - 1) * 30 + ((year : ℚ) - 1) * 365 + (⌊(year : ℚ) / 4⌋ : ℚ) + jdEpoch - 1

/-- Source `gregorianToEthiopian(date)`, ModernDatePicker.js 67-78 (same text in
ModernDatePicker.jsx 81-92 and ModernCalendar.jsx 54-65). -/
def gregorianToEthiopian (date : JSDate) : EthDate :=
  let jdEpoch : ℚ := 1724220.5
  let jd := gregorianToJD date
  let c : ℚ := (⌊jd⌋ : ℚ) + 0.5 - jdEpoch
  let year : ℤ := ⌊(c - (⌊(c + 366) / 1461⌋ : ℚ)) / 365⌋ + 1
  let year := if year ≤ 0 then year - 1 else year
  let yearStart := ethiopianToJD year 1 1
  let dayOfYear : ℚ := (⌊jd⌋ : ℚ) + 0.5 - yearStart + 1
  let month : ℤ := ⌊(dayOfYear - 1) / 30⌋ + 1
  let day : ℚ := dayOfYear - ((month : ℚ) - 1) * 30
  { year := year, month := month, day := day }

/-- The integer `N` with `gregorianToJD date = N - 1524.5`. -/
def jdInt (date : JSDate) : ℤ :=
  let year := date.getFullYear
  let month := date.getMonth + 1
  let year := if year < 0 then year + 1 else year
  let year := if month < 3 then year - 1 else year
  let month := if month < 3 then month + 12 else month
  1461 * (year + 4716) / 4 + 306001 * (month + 1) / 10000 + date.getDate
    + (2 - year / 100 + year / 100 / 4)

/-- The integer `c = ⌊jd⌋ + 0.5 - jdEpoch` of `gregorianToEthiopian`: whole days from the
Ethiopian epoch to the date. -/
def epochCount (date : JSDate) : ℤ := jdInt date - 1725745

/-- Integer form of the year estimate of `gregorianToEthiopian`, before the
`if (year <= 0) year--` adjustment. -/
def ethYearOfCount (c : ℤ) : ℤ := (c - (c + 366) / 1461) / 365 + 1

/-- Integer form of `dayOfYear` in `gregorianToEthiopian`. -/
def ethDayOfYear (c : ℤ) : ℤ := c - ((ethYearOfCount c - 1) * 365 + ethYearOfCount c / 4) + 1

/-- The year as `ethiopianToJD` uses it after `if (year < 0) year++`: years are counted
without a gap, `0` being the year before year `1`. -/
def EthDate.internalYear (e : EthDate) : ℤ := if e.year < 0 then e.year + 1 else e.year

/-- Validity of an Ethiopian date: months 1..12 have days 1..30, month 13 has days 1..5,
and a day 6 when `year mod 4 = 3`. -/
def validEthiopian (year month day : ℤ) : Prop :=
  (1 ≤ month ∧ month ≤ 12 ∧ 1 ≤ day ∧ day ≤ 30)
    ∨ (month = 13 ∧ 1 ≤ day ∧ (day ≤ 5 ∨ (day = 6 ∧ year % 4 = 3)))

instance (year month day : ℤ) : Decidable (validEthiopian year month day) := by
  unfold validEthiopian
  infer_instance

/-- Gregorian leap-year rule: divisible by 4 and (not divisible by 100 or divisible by 400). -/
def isLeapYear (year : ℤ) : Prop := year % 4 = 0 ∧ (year % 100 ≠ 0 ∨ year % 400 = 0)

instance (year : ℤ) : Decidable (isLeapYear year) := by
  unfold isLeapYear
  infer_instance

/-- Length of a Gregorian month, `month` counted from 1: 31, 30, or 28 (29 in a leap year). -/
def daysInMonth (year month : ℤ) : ℤ :=
  if month = 2 then (if isLeapYear year then 29 else 28)
  else if month = 4 ∨ month = 6 ∨ month = 9 ∨ month = 11 then 30
  else 31

/-- A valid proleptic-Gregorian date, as `Date` fields: `getMonth()` in 0..11 and
`getDate()` in 1..length of the month. -/
def validGregorian (d : JSDate) : Prop :=
  0 ≤ d.getMonth ∧ d.getMonth ≤ 11 ∧ 1 ≤ d.getDate ∧
    d.getDate ≤ daysInMonth d.getFullYear (d.getMonth + 1)

instance (d : JSDate) : Decidable (validGregorian d) := by
  unfold validGregorian
  infer_instance

/-- Earlier in (year, month, day) order. -/
def JSDate.earlier (a b : JSDate) : Prop :=
  a.getFullYear < b.getFullYear ∨ (a.getFullYear = b.getFullYear ∧
    (a.getMonth < b.getMonth ∨ (a.getMonth = b.getMonth ∧ a.getDate < b.getDate)))

instance (a b : JSDate) : Decidable (a.earlier b) := by
  unfold JSDate.earlier
  infer_instance

/-- The next calendar day: the day after the last day of a month is the first of the next
month, the day after December 31 is January 1 of the next year. -/
def nextDay (d : JSDate) : JSDate :=
  if d.getDate < daysInMonth d.getFullYear (d.getMonth + 1) then
    { d with getDate := d.getDate + 1 }
  else if d.getMonth < 11 then
    { getFullYear := d.getFullYear, getMonth := d.getMonth + 1, getDate := 1 }
  else
    { getFullYear := d.getFullYear + 1, getMonth := 0, getDate := 1 }

/-! ## JavaScript `Date` at day granularity (ECMA-262, Time Values and Time Range) -/

/-- ECMAScript `DaysInYear(y)`. -/
def daysInYear (y : ℤ) : ℤ :=
  if y % 4 ≠ 0 then 365
  else if y % 100 ≠ 0 then 366
  else if y % 400 ≠ 0 then 365
  else 366

/-- ECMAScript `DayFromYear(y)`: the day number of 1 January of year `y`, day 0 being 1970-01-01. -/
def dayFromYear (y : ℤ) : ℤ :=
  365 * (y - 1970) + (y - 1969) / 4 - (y - 1901) / 100 + (y - 1601) / 400

/-- ECMAScript `YearFromTime`: the largest `y` with `dayFromYear y ≤ t`, computed from an estimate
that is off by at most one. -/
def yearFromDay (t : ℤ) : ℤ :=
  let y := 1970 + t * 400 / 146097
  if dayFromYear (y + 1) ≤ t then y + 1
  else if dayFromYear y ≤ t then y
  else y - 1

/-- ECMAScript `InLeapYear(t)` as a number, 1 in a leap year and 0 otherwise. -/
def inLeapYear (t : ℤ) : ℤ := if daysInYear (yearFromDay t) = 366 then 1 else 0

/-- ECMAScript `DayWithinYear(t)`. -/
def dayWithinYear (t : ℤ) : ℤ := t - dayFromYear (yearFromDay t)

/-- ECMAScript `MonthFromTime(t)`, the value of `getMonth()`. -/
def monthFromDay (t : ℤ) : ℤ :=
  let d := dayWithinYear t
  let l := inLeapYear t
  if d < 31 then 0
  else if d < 59 + l then 1
  else if d < 90 + l then 2
  else if d < 120 + l then 3
  else if d < 151 + l then 4
  else if d < 181 + l then 5
  else if d < 212 + l then 6
  else if d < 243 + l then 7
  else if d < 273 + l then 8
  else if d < 304 + l then 9
  else if d < 334 + l then 10
  else 11

/-- Day within the year of the first of month `m` (0..11), `l` being 1 in a leap year. -/
def monthStart (m l : ℤ) : ℤ :=
  if m = 0 then 0
  else if m = 1 then 31
  else if m = 2 then 59 + l
  else if m = 3 then 90 + l
  else if m = 4 then 120 + l
  else if m = 5 then 151 + l
  else if m = 6 then 181 + l
  else if m = 7 then 212 + l
  else if m = 8 then 243 + l
  else if m = 9 then 273 + l
  else if m = 10 then 304 + l
  else 334 + l

/-- ECMAScript `DateFromTime(t)`, the value of `getDate()`. -/
def dateFromDay (t : ℤ) : ℤ := dayWithinYear t - monthStart (monthFromDay t) (inLeapYear t) + 1

/-- ECMAScript `WeekDay(t)`, the value of `getDay()`: 0 is Sunday, and day 0 was a Thursday. -/
def weekDay (t : ℤ) : ℤ := (t + 4) % 7

/-- ECMAScript `MakeDay(year, month, date)`: months outside 0..11 carry into the year, the date is
added as a plain offset from the first of the month. -/
def makeDay (year month date : ℤ) : ℤ :=
  let ym := year + month / 12
  let mn := month % 12
  dayFromYear ym + monthStart mn (if daysInYear ym = 366 then 1 else 0) + date - 1

/-- Constructor `new Date(year, month, date)`: a year from 0 to 99 stands for 1900 + year. -/
def newDate (year month date : ℤ) : ℤ :=
  makeDay (if 0 ≤ year ∧ year ≤ 99 then 1900 + year else year) month date

/-- Method `d.setDate(date)` on the `Date` of day `t`. -/
def setDate (t date : ℤ) : ℤ := makeDay (yearFromDay t) (monthFromDay t) date


/-- One cell of the month grid: the `Date` of the cell (its day number), the text shown
(`getDate()`), the React key, and the four flags that select the CSS classes. -/
structure DayCell where
  key : ℕ
  currentDate : ℤ
  label : ℤ
  isCurrentMonth : Bool
  isToday : Bool
  isSelected : Bool
  isWeekend : Bool
  deriving DecidableEq, Repr

/-- Source `isSameDay(date1, date2)`, ModernCalendar.js 80-84 (same text in ModernCalendar.jsx
113-117). -/
def isSameDay (date1 date2 : ℤ) : Bool :=
  decide (dateFromDay date1 = dateFromDay date2) &&
  decide (monthFromDay date1 = monthFromDay date2) &&
  decide (yearFromDay date1 = yearFromDay date2)

/-- Source `renderDays()`, ModernCalendar.js 86-126 (same text in ModernCalendar.jsx 119-159).
The component state `viewDate`, `selectedDate` and `currentDate` and the prop
`firstDayOfWeek` are parameters; as in the source, the loop constant `currentDate`
hides the state `currentDate` inside the loop body. -/
def renderDays (viewDate firstDayOfWeek : ℤ) (selectedDate : Option ℤ) (currentDate : ℤ) :
    List DayCell :=
  let year := yearFromDay viewDate
  let month := monthFromDay viewDate
  let firstDay := newDate year month 1
  let startDate := firstDay
  let dayOfWeek := Int.tmod (weekDay firstDay - firstDayOfWeek + 7) 7
  let startDate := setDate startDate (dateFromDay startDate - dayOfWeek)
  (List.range 42).map fun (i : ℕ) =>
    let currentDate := setDate startDate (dateFromDay startDate + (i : ℤ))
    let isCurrentMonth := decide (monthFromDay currentDate = month)
    let isToday := isSameDay currentDate currentDate
    let isSelected :=
      match selectedDate with
      | none => false
      | some selected => isSameDay currentDate selected
    let isWeekend := decide (weekDay currentDate = 0) || decide (weekDay currentDate = 6)
    { key := i, currentDate := currentDate, label := dateFromDay currentDate,
      isCurrentMonth := isCurrentMonth, isToday := isToday, isSelected := isSelected,
      isWeekend := isWeekend }

/-- The first cell of the grid: the first of the month moved back to the chosen first
day of the week. -/
def gridStart (viewDate firstDayOfWeek : ℤ) : ℤ :=
  newDate (yearFromDay viewDate) (monthFromDay viewDate) 1
    - Int.tmod (weekDay (newDate (yearFromDay viewDate) (monthFromDay viewDate) 1)
        - firstDayOfWeek + 7) 7

/-- The `Date` fields of the day with number `t`. -/
def fieldsOfDay (t : ℤ) : JSDate :=
  { getFullYear := yearFromDay t, getMonth := monthFromDay t, getDate := dateFromDay t }

/-- The value of `InLeapYear` for a year: 1 when the year has 366 days, else 0. -/
def leapFlag (y : ℤ) : ℤ := if daysInYear y = 366 then 1 else 0

/-! ## The approximate Islamic conversion -/

/-- The object literal returned by `gregorianToIslamic`. -/
structure IslamicDate where
  year : ℤ
  month : ℤ
  day : ℤ
  deriving DecidableEq, Repr

/-- Source `gregorianToIslamic(date)`, ModernDatePicker.js 80-88 (same text in
ModernDatePicker.jsx 94-102). The expression `date - islamicEpoch` subtracts the time
values of the two `Date` objects, so `date` is here the time value of the argument, in
milliseconds since 1970-01-01 UTC, with its time of day. The constant `islamicEpoch` is
`new Date(622, 6, 16)`, local midnight of 622-07-16: its time value depends on the time
zone of the host and is the first parameter. The difference need not be a whole number of
days. -/
def gregorianToIslamic (islamicEpoch date : ℤ) : IslamicDate :=
  let daysDiff : ℤ := ⌊((date - islamicEpoch : ℤ) : ℚ) / (1000 * 60 * 60 * 24)⌋
  let islamicYear : ℤ := ⌊(daysDiff : ℚ) / 354.37⌋ + 1
  let dayOfYear : ℤ := daysDiff - ⌊((islamicYear : ℚ) - 1) * 354.37⌋
  let islamicMonth : ℤ := ⌊(dayOfYear : ℚ) / 29.53⌋ + 1
  let islamicDay : ℤ := ⌊(dayOfYear : ℚ) - ((islamicMonth : ℚ) - 1) * 29.53⌋ + 1
  { year := islamicYear, month := min islamicMonth 12, day := min islamicDay 30 }

/-- Integer form of `islamicYear`, from the day offset `daysDiff`. -/
def islamicYearOfDiff (daysDiff : ℤ) : ℤ := 100 * daysDiff / 35437 + 1

/-- Integer form of `dayOfYear`. -/
def islamicDayOfYear (daysDiff : ℤ) : ℤ :=
  daysDiff - 35437 * (islamicYearOfDiff daysDiff - 1) / 100

/-- Integer form of `islamicMonth`, before `Math.min(islamicMonth, 12)`. -/
def islamicMonthOfDiff (daysDiff : ℤ) : ℤ := 100 * islamicDayOfYear daysDiff / 2953 + 1

/-- Integer form of `islamicDay`, before `Math.min(islamicDay, 30)`. -/
def islamicDayOfDiff (daysDiff : ℤ) : ℤ :=
  (100 * islamicDayOfYear daysDiff - 2953 * (islamicMonthOfDiff daysDiff - 1)) / 100 + 1

/-- Integer form of `daysDiff`: the whole days, rounded down, from the time value
`islamicEpoch` to the time value `date`. -/
def islamicDaysDiff (islamicEpoch date : ℤ) : ℤ := (date - islamicEpoch) / 86400000

/-- What the picker reads from its host when it converts a `Date` that it holds as a local
day number: `islamicEpoch` is the time value of `new Date(622, 6, 16)` in the time zone of
the host, and `timeValue day` is the time value of the `Date` held for the local day `day`
(milliseconds since 1970-01-01 UTC). -/
structure Host where
  islamicEpoch : ℤ
  timeValue : ℤ → ℤ

/-- A host in UTC that holds every `Date` at midnight: the time value of a day is its day
number times 86400000. -/
def utcHost : Host :=
  { islamicEpoch := newDate 622 6 16 * 86400000, timeValue := fun day => day * 86400000 }

/-- Earlier in (year, month, day) order. -/
def IslamicDate.earlier (a b : IslamicDate) : Prop :=
  a.year < b.year ∨ (a.year = b.year ∧ (a.month < b.month ∨ (a.month = b.month ∧ a.day < b.day)))

instance (a b : IslamicDate) : Decidable (a.earlier b) := by
  unfold IslamicDate.earlier
  infer_instance

/-! ## Strings, property lookup and formatting -/

/-- Conversion of a number to a string, as `String(n)` and template literals do it, for
whole numbers: the decimal numeral, with a minus sign below zero. The code formats whole
numbers only; a value that is not whole is written here as a fraction. -/
def numberToString (x : ℚ) : String :=
  if x.den = 1 then toString x.num else toString x.num ++ "/" ++ toString x.den

/-- Method `s.padStart(targetLength, padString)`. -/
def padStart (s : String) (targetLength : ℕ) (padString : String) : String :=
  if targetLength ≤ s.length ∨ padString = "" then s
  else
    String.mk (((List.replicate (targetLength - s.length) padString.data).flatten).take
      (targetLength - s.length)) ++ s

/-- The characters of `s.replace(pattern, replacement)` for a string pattern: the first
occurrence of the pattern is replaced, a string without the pattern is unchanged. -/
def replaceChars (pattern replacement : List Char) : List Char → List Char
  | [] => if pattern = [] then replacement else []
  | c :: cs =>
    if (c :: cs).take pattern.length = pattern then
      replacement ++ (c :: cs).drop pattern.length
    else c :: replaceChars pattern replacement cs

/-- Method `s.replace(pattern, replacement)` with a string pattern. The replacements of
the source are numerals, which hold no `$` pattern. -/
def replace (s pattern replacement : String) : String :=
  String.mk (replaceChars pattern.data replacement.data s.data)

/-- Source `formatDate(date)`, ModernDatePicker.jsx 56-79, with the props `calendar` and
`format` as parameters. The `Date` is its local day number `date`; the Islamic branch,
which subtracts `Date` objects, takes its time value from the host. -/
def formatDate (host : Host) (calendar format : String) (date : ℤ) : String :=
  if calendar = "ethiopian" then
    let ethDate := gregorianToEthiopian (fieldsOfDay date)
    replace (replace (replace format "yyyy" (numberToString ethDate.year))
      "mm" (padStart (numberToString ethDate.month) 2 "0"))
      "dd" (padStart (numberToString ethDate.day) 2 "0")
  else if calendar = "islamic" then
    let islamicDate := gregorianToIslamic host.islamicEpoch (host.timeValue date)
    replace (replace (replace format "yyyy" (numberToString islamicDate.year))
      "mm" (padStart (numberToString islamicDate.month) 2 "0"))
      "dd" (padStart (numberToString islamicDate.day) 2 "0")
  else
    let year := yearFromDay date
    let month := padStart (numberToString ((monthFromDay date + 1 : ℤ) : ℚ)) 2 "0"
    let day := padStart (numberToString (dateFromDay date)) 2 "0"
    replace (replace (replace format "yyyy" (numberToString year)) "mm" month) "dd" day

/-- Source `formatDate(date)`, ModernDatePicker.js 39-64: the same text after the guard
`if (!date) return ''`. -/
def NextPicker.formatDate (host : Host) (calendar format : String) (date : Option ℤ) :
    String :=
  match date with
  | none => ""
  | some d => ModernCal.formatDate host calendar format d

/-- The result of a property read `obj[key]` that is not `undefined`: a value of the
object itself, or a member inherited from `Object.prototype`. -/
inductive JSValue (α : Type) where
  | value (a : α)
  | inheritedMember (key : String)
  deriving DecidableEq, Repr

/-- The property names of `Object.prototype`, which every object literal inherits. -/
def objectPrototypeKeys : List String :=
  ["constructor", "__defineGetter__", "__defineSetter__", "hasOwnProperty",
    "__lookupGetter__", "__lookupSetter__", "isPrototypeOf", "propertyIsEnumerable",
    "toString", "valueOf", "__proto__", "toLocaleString"]

/-- Property read `obj[key]` on an object literal; `none` is `undefined`. -/
def getProp {α : Type} (obj : List (String × α)) (key : String) : Option (JSValue α) :=
  match obj.lookup key with
  | some a => some (JSValue.value a)
  | none => if key ∈ objectPrototypeKeys then some (JSValue.inheritedMember key) else none

/-- Element read `xs[i]` on the result of a table lookup; `none` is `undefined`: an index
outside the array, or any index on an inherited member. -/
def getIndex (xs : JSValue (List String)) (i : ℤ) : Option String :=
  match xs with
  | JSValue.value l => if 0 ≤ i then l.get? i.toNat else none
  | JSValue.inheritedMember _ => none

/-- A string-valued expression inside a template literal: `undefined` is written out. -/
def template (s : Option String) : String := s.getD "undefined"

/-- Source `getCalendarTitle()`, ModernCalendar.js 19-26 (same text in ModernCalendar.jsx
19-26), with the state `calendarType` as parameter. -/
def getCalendarTitle (calendarType : String) : JSValue String :=
  let titles := [("gregorian", "Modern Calendar"), ("ethiopian", "የኢትዮጵያ ዘመን አቆጣጠር"),
    ("islamic", "التقويم الإسلامي")]
  match getProp titles calendarType with
  | some (JSValue.value s) => if s = "" then JSValue.value "Modern Calendar" else JSValue.value s
  | some (JSValue.inheritedMember k) => JSValue.inheritedMember k
  | none => JSValue.value "Modern Calendar"

/-- Source `getMonthNames()`, ModernDatePicker.js 221-231, with the prop `language` as
parameter. The characters of the `am` table are those of the source file. -/
def NextPicker.getMonthNames (language : String) : JSValue (List String) :=
  let monthNames := [
    ("en", ["January", "February", "March", "April", "May", "June", "July", "August", "September",
      "October", "November", "December"]),
    ("am", ["\u00e1\u02c6\u02dc\u00e1\u02c6\u00b5\u00e1\u0160\u00a8\u00e1\u02c6\u00a8\u00e1\u02c6",
      "\u00e1\u0152\u00a5\u00e1\u2030\u2026\u00e1\u02c6\u00e1\u2030\u00b5",
      "\u00e1\u0160\u2026\u00e1\u2039\u00b3\u00e1\u02c6\u00ad",
      "\u00e1\u2030\u00b3\u00e1\u0160\u2026\u00e1\u02c6\u00b3\u00e1\u02c6\u00b5",
      "\u00e1\u0152\u00a5\u00e1\u02c6\u00ad",
      "\u00e1\u2039\u00a8\u00e1\u0160\u00ab\u00e1\u2030\u00b2\u00e1\u2030\u00b5",
      "\u00e1\u02c6\u02dc\u00e1\u0152\u2039\u00e1\u2030\u00a2\u00e1\u2030\u00b5",
      "\u00e1\u02c6\u0161\u00e1\u2039\u00ab\u00e1\u2039\u00e1\u2039\u00ab",
      "\u00e1\u0152\u00e1\u0160\u2022\u00e1\u2030\u00a6\u00e1\u2030\u00b5",
      "\u00e1\u02c6\u00b0\u00e1\u0160\u201d", "\u00e1\u02c6\u00e1\u02c6\u00e1\u02c6\u0152",
      "\u00e1\u0160\u00e1\u02c6\u00e1\u02c6\u00b4",
      "\u00e1\u0152\u00b3\u00e1\u0152\u2030\u00e1\u02c6\u0153"]),
    ("oro", ["Fuulbaana", "Onkolooleessaa", "Sadaasaa", "Muddee", "Ammajjii", "Gurraandhala",
      "Bitooteessaa", "Ebla", "Caamsaa", "Waxabajjii", "Adoolessa", "Hagayya", "Qaamee"])]
  match getProp monthNames language with
  | some v => v
  | none => JSValue.value
    ["January", "February", "March", "April", "May", "June", "July", "August", "September",
      "October", "November", "December"]

/-- Source `getDayNames()`, ModernDatePicker.js 233-240, with the prop `language` as
parameter. The characters of the `am` table are those of the source file. -/
def NextPicker.getDayNames (language : String) : JSValue (List String) :=
  let dayNames := [
    ("en", ["Sunday", "Monday", "Tuesday", "Wednesday", "Thursday", "Friday", "Saturday"]),
    ("am", ["\u00e1\u0160\u00a5\u00e1\u02c6\u2018\u00e1\u2039\u00b5", "\u00e1\u02c6\u00b0\u00e1\u0160",
      "\u00e1\u02c6\u203a\u00e1\u0160\u00ad\u00e1\u02c6\u00b0",
      "\u00e1\u02c6\u00a8\u00e1\u2030\u00a1\u00e1\u2039\u2022",
      "\u00e1\u02c6\u00e1\u02c6\u2122\u00e1\u02c6\u00b5",
      "\u00e1\u2039\u201c\u00e1\u02c6\u00ad\u00e1\u2030\u00a5",
      "\u00e1\u2030\u2026\u00e1\u2039\u00b3\u00e1\u02c6\u0153"]),
    ("oro", ["Wiixata", "Kibxata", "Roobii", "Khamisa", "Jimaata", "Sanbata", "Dilbata"])]
  match getProp dayNames language with
  | some v => v
  | none => JSValue.value
    ["Sunday", "Monday", "Tuesday", "Wednesday", "Thursday", "Friday", "Saturday"]

/-- Source `getDisplayText(date)`, ModernDatePicker.js 199-219, with the props `calendar`
and `language` as parameters. The built-in `date.toLocaleDateString(locale, options)` of
the last branch is the parameter `toLocaleDateString`. The `Date` is its local day number;
the Islamic branch takes its time value from the host. -/
def NextPicker.getDisplayText (host : Host) (toLocaleDateString : String → ℤ → String)
    (calendar language : String) (date : Option ℤ) : String :=
  match date with
  | none => ""
  | some date =>
    if calendar = "ethiopian" then
      let ethDate := gregorianToEthiopian (fieldsOfDay date)
      let monthNames := NextPicker.getMonthNames language
      let dayNames := NextPicker.getDayNames language
      let dayName := getIndex dayNames (weekDay date)
      template dayName ++ ", " ++ numberToString ethDate.day ++ " "
        ++ template (getIndex monthNames (ethDate.month - 1)) ++ " "
        ++ numberToString ethDate.year
    else if calendar = "islamic" then
      let islamicDate := gregorianToIslamic host.islamicEpoch (host.timeValue date)
      let monthNames := NextPicker.getMonthNames language
      let dayNames := NextPicker.getDayNames language
      let dayName := getIndex dayNames (weekDay date)
      template dayName ++ ", " ++ numberToString islamicDate.day ++ " "
        ++ template (getIndex monthNames (islamicDate.month - 1)) ++ " "
        ++ numberToString islamicDate.year
    else
      let locale := if language = "am" then "am-ET" else "en-US"
      toLocaleDateString locale date

/-- The constant `ethiopianYear` of `formatEthiopianDate` in ModernCalendar.js: the
Gregorian year minus 7. -/
def NextCalendar.ethiopianYear (date : JSDate) : ℤ :=
  let gregorianYear := date.getFullYear
  gregorianYear - 7

/-- Source `formatEthiopianDate(date)`, ModernCalendar.js 40-51. -/
def NextCalendar.formatEthiopianDate (date : JSDate) : String :=
  let ethiopianMonths := ["መስከረም", "ጥቅምት", "ኅዳር", "ታኅሳስ", "ጥር", "የካቲት", "መጋቢት", "ሚያዝያ", "ግንቦት", "ሰኔ", "ሐምሌ", "ነሐሴ",
    "ጳጉሜን"]
  let ethiopianYear := NextCalendar.ethiopianYear date
  let monthIndex := date.getMonth
  template (getIndex (JSValue.value ethiopianMonths) monthIndex) ++ " "
    ++ numberToString ethiopianYear

/-- On or after Ethiopian new year within a Gregorian year: 11 September, or 12 September
when the next Gregorian year is divisible by 4. -/
def onOrAfterNewYear (g : JSDate) : Prop :=
  8 < g.getMonth ∨
    (g.getMonth = 8 ∧ (if (g.getFullYear + 1) % 4 = 0 then 12 else 11) ≤ g.getDate)

instance (g : JSDate) : Decidable (onOrAfterNewYear g) := by
  unfold onOrAfterNewYear
  infer_instance

/-- The four digits of a number from 1000 to 9999. -/
def digits4 (n : ℤ) : List Char :=
  [Nat.digitChar (n.toNat / 1000), Nat.digitChar (n.toNat / 100 % 10),
    Nat.digitChar (n.toNat / 10 % 10), Nat.digitChar (n.toNat % 10)]

/-- The two digits of a number from 0 to 99, a leading zero included. -/
def digits2 (n : ℤ) : List Char :=
  [Nat.digitChar (n.toNat / 10), Nat.digitChar (n.toNat % 10)]

/-! ## Month navigation, the React name tables and the React title -/

/-- Method `d.setMonth(month)` on the `Date` of day `t`: the day of the month is kept and
`MakeDay` carries what goes beyond the end of the month. -/
def setMonth (t month : ℤ) : ℤ := makeDay (yearFromDay t) month (dateFromDay t)

/-- Source `previousMonth()`, ModernCalendar.js 135-142 (same text in ModernCalendar.jsx
168-175): the new value of the state `viewDate`, which is also passed to `onMonthChange`. -/
def previousMonth (viewDate : ℤ) : ℤ :=
  let newDate := viewDate
  setMonth newDate (monthFromDay newDate - 1)

/-- Source `nextMonth()`, ModernCalendar.js 144-151 (same text in ModernCalendar.jsx
177-184): the new value of the state `viewDate`, which is also passed to `onMonthChange`. -/
def nextMonth (viewDate : ℤ) : ℤ :=
  let newDate := viewDate
  setMonth newDate (monthFromDay newDate + 1)

/-- The year and month of a view date, as `getFullYear()` and `getMonth()`. -/
def viewMonth (viewDate : ℤ) : ℤ × ℤ := (yearFromDay viewDate, monthFromDay viewDate)

/-- The calendar month after `(year, month)`: December is followed by January of the
next year. -/
def followingMonth (ym : ℤ × ℤ) : ℤ × ℤ := if ym.2 = 11 then (ym.1 + 1, 0) else (ym.1, ym.2 + 1)

/-- The calendar month before `(year, month)`: January is preceded by December of the
year before. -/
def precedingMonth (ym : ℤ × ℤ) : ℤ × ℤ := if ym.2 = 0 then (ym.1 - 1, 11) else (ym.1, ym.2 - 1)

/-- The array `languages` of App.jsx 17-21: the values and labels of the language
selector. -/
def App.languages : List (String × String) :=
  [("en", "English"), ("am", "አማርኛ"), ("or", "Oromo")]

/-- The object `monthNames` of `getMonthNames`, ModernCalendar.jsx 84-91. -/
def ReactCalendar.monthNames : List (String × List String) :=
  [("en", ["January", "February", "March", "April", "May", "June", "July", "August", "September",
      "October", "November", "December"]),
    ("am", ["መስከረም", "ጥቅምት", "ኅዳር", "ታኅሳስ", "ጥር", "የካቲት", "መጋቢት", "ሚያዝያ", "ግንቦት", "ሰኔ", "ሐምሌ",
      "ነሐሴ", "ጳጉሜ"]),
    ("oro", ["Fuulbaana", "Onkolooleessaa", "Sadaasaa", "Muddee", "Ammajjii", "Gurraandhala",
      "Bitooteessaa", "Ebla", "Caamsaa", "Waxabajjii", "Adoolessa", "Hagayya", "Qaamee"])]

/-- Source `getMonthNames()`, ModernCalendar.jsx 83-93, with the prop `language` as
parameter: `monthNames[language] || monthNames.en`. -/
def ReactCalendar.getMonthNames (language : String) : JSValue (List String) :=
  match getProp ReactCalendar.monthNames language with
  | some v => v
  | none => JSValue.value ((ReactCalendar.monthNames.lookup "en").getD [])

/-- The object `dayNames` of `getDayNames`, ModernCalendar.jsx 96-100. -/
def ReactCalendar.dayNames : List (String × List String) :=
  [("en", ["Sun", "Mon", "Tue", "Wed", "Thu", "Fri", "Sat"]),
    ("am", ["እሑድ", "ሰኞ", "ማክሰ", "ረቡዕ", "ሐሙስ", "ዓርብ", "ቅዳሜ"]),
    ("oro", ["Wiixata", "Kibxata", "Roobii", "Khamisa", "Jimaata", "Sanbata", "Dilbata"])]

/-- Source `getDayNames()`, ModernCalendar.jsx 95-102, with the prop `language` as
parameter: `dayNames[language] || dayNames.en`. -/
def ReactCalendar.getDayNames (language : String) : JSValue (List String) :=
  match getProp ReactCalendar.dayNames language with
  | some v => v
  | none => JSValue.value ((ReactCalendar.dayNames.lookup "en").getD [])

/-- The array `ethiopianMonths` of `formatEthiopianDate`, ModernCalendar.jsx 74-77. -/
def ReactCalendar.ethiopianMonths : List String :=
  ["መስከረም", "ጥቅምት", "ኅዳር", "ታኅሳስ", "ጥር", "የካቲት", "መጋቢት", "ሚያዝያ", "ግንቦት", "ሰኔ", "ሐምሌ",
    "ነሐሴ", "ጳጉሜ"]

/-- The array `ethiopianMonths` of `formatEthiopianDate`, ModernCalendar.js 41-44. -/
def NextCalendar.ethiopianMonths : List String :=
  ["መስከረም", "ጥቅምት", "ኅዳር", "ታኅሳስ", "ጥር", "የካቲት", "መጋቢት", "ሚያዝያ", "ግንቦት", "ሰኔ", "ሐምሌ", "ነሐሴ",
    "ጳጉሜን"]

/-- Source `formatEthiopianDate(date)`, ModernCalendar.jsx 73-81. -/
def ReactCalendar.formatEthiopianDate (date : JSDate) : String :=
  let ethDate := gregorianToEthiopian date
  template (getIndex (JSValue.value ReactCalendar.ethiopianMonths) (ethDate.month - 1)) ++ " "
    ++ numberToString ethDate.year

/-! ## Integer forms of the floors -/

theorem floor_intCast_div_four (n : ℤ) : ⌊(n : ℚ) / 4⌋ = n / 4 := by
  have h := Rat.floor_intCast_div_natCast n 4
  simpa using h

theorem floor_intCast_div_hundred (n : ℤ) : ⌊(n : ℚ) / 100⌋ = n / 100 := by
  have h := Rat.floor_intCast_div_natCast n 100
  simpa using h

theorem floor_yearDays (y : ℤ) : ⌊(365.25 : ℚ) * ((y : ℚ) + 4716)⌋ = 1461 * (y + 4716) / 4 := by
  have h := Rat.floor_intCast_div_natCast (1461 * (y + 4716)) 4
  have e : (365.25 : ℚ) * ((y : ℚ) + 4716) = ((1461 * (y + 4716) : ℤ) : ℚ) / ((4 : ℕ) : ℚ) := by
    push_cast
    ring
  rw [e, h]
  rfl

theorem floor_monthDays (m : ℤ) : ⌊(30.6001 : ℚ) * ((m : ℚ) + 1)⌋ = 306001 * (m + 1) / 10000 := by
  have h := Rat.floor_intCast_div_natCast (306001 * (m + 1)) 10000
  have e : (30.6001 : ℚ) * ((m : ℚ) + 1) = ((306001 * (m + 1) : ℤ) : ℚ) / ((10000 : ℕ) : ℚ) := by
    push_cast
    ring
  rw [e, h]
  rfl

theorem gregorianToJD_eq (date : JSDate) : gregorianToJD date = (jdInt date : ℚ) - 1524.5 := by
  simp only [gregorianToJD, jdInt, floor_intCast_div_four, floor_intCast_div_hundred,
    floor_yearDays, floor_monthDays]
  push_cast
  ring

theorem floor_gregorianToJD (date : JSDate) :
    (⌊gregorianToJD date⌋ : ℚ) + 0.5 = gregorianToJD date := by
  have e : gregorianToJD date = ((jdInt date - 1525 : ℤ) : ℚ) + 1 / 2 := by
    rw [gregorianToJD_eq]
    push_cast
    norm_num
    ring
  have hf : ⌊gregorianToJD date⌋ = jdInt date - 1525 := by
    rw [e, Int.floor_eq_iff]
    constructor <;> norm_num
  rw [hf, e]
  norm_num

theorem floor_count_cycle (c : ℤ) : ⌊((c : ℚ) + 366) / 1461⌋ = (c + 366) / 1461 := by
  have h := Rat.floor_intCast_div_natCast (c + 366) 1461
  have e : ((c : ℚ) + 366) / 1461 = ((c + 366 : ℤ) : ℚ) / ((1461 : ℕ) : ℚ) := by
    push_cast
    ring
  rw [e, h]
  rfl

theorem floor_count_year (c q : ℤ) : ⌊((c : ℚ) - (q : ℚ)) / 365⌋ = (c - q) / 365 := by
  have h := Rat.floor_intCast_div_natCast (c - q) 365
  have e : ((c : ℚ) - (q : ℚ)) / 365 = ((c - q : ℤ) : ℚ) / ((365 : ℕ) : ℚ) := by
    push_cast
    ring
  rw [e, h]
  rfl

theorem floor_month (n : ℤ) : ⌊((n : ℚ) - 1) / 30⌋ = (n - 1) / 30 := by
  have h := Rat.floor_intCast_div_natCast (n - 1) 30
  have e : ((n : ℚ) - 1) / 30 = ((n - 1 : ℤ) : ℚ) / ((30 : ℕ) : ℚ) := by
    push_cast
    ring
  rw [e, h]
  rfl

/-- The two year adjustments cancel: `ethiopianToJD` undoes the `year--` that
`gregorianToEthiopian` applies to a year estimate `y ≤ 0`. -/
theorem ethiopianToJD_adjusted (y m : ℤ) (d : ℚ) :
    ethiopianToJD (if y ≤ 0 then y - 1 else y) m d
      = d + ((m : ℚ) - 1) * 30 + ((y : ℚ) - 1) * 365 + ((y / 4 : ℤ) : ℚ) + 1724220.5 - 1 := by
  by_cases hy : y ≤ 0
  · have h1 : y - 1 < 0 := by omega
    simp only [ethiopianToJD, hy, h1, if_true, floor_intCast_div_four]
    push_cast
    ring_nf
  · have h1 : ¬ y < 0 := by omega
    simp only [ethiopianToJD, hy, h1, if_false, floor_intCast_div_four]

theorem ethiopianToJD_of_pos (y m d : ℤ) (hy : 1 ≤ y) :
    ethiopianToJD y m d
      = (((d - 1) + (m - 1) * 30 + (y - 1) * 365 + y / 4 : ℤ) : ℚ) + 1724220.5 := by
  have h1 : ¬ y < 0 := by omega
  simp only [ethiopianToJD, h1, if_false, floor_intCast_div_four]
  push_cast
  ring

theorem gregorianToJD_sub_epoch (g : JSDate) :
    gregorianToJD g - 1724220.5 = ((epochCount g : ℤ) : ℚ) := by
  rw [gregorianToJD_eq, epochCount]
  push_cast
  norm_num
  ring

/-- Integer form of `gregorianToEthiopian`. -/
theorem gregorianToEthiopian_eq (g : JSDate) :
    gregorianToEthiopian g =
      { year := if ethYearOfCount (epochCount g) ≤ 0 then ethYearOfCount (epochCount g) - 1
                else ethYearOfCount (epochCount g)
        month := (ethDayOfYear (epochCount g) - 1) / 30 + 1
        day := ((ethDayOfYear (epochCount g)
                  - (ethDayOfYear (epochCount g) - 1) / 30 * 30 : ℤ) : ℚ) } := by
  have hy : (⌊(((epochCount g : ℤ) : ℚ) - (⌊(((epochCount g : ℤ) : ℚ) + 366) / 1461⌋ : ℚ)) / 365⌋ + 1)
      = ethYearOfCount (epochCount g) := by
    rw [floor_count_cycle, floor_count_year, ethYearOfCount]
  have hd : gregorianToJD g
      - ethiopianToJD (if ethYearOfCount (epochCount g) ≤ 0 then ethYearOfCount (epochCount g) - 1
          else ethYearOfCount (epochCount g)) 1 1 + 1
      = ((ethDayOfYear (epochCount g) : ℤ) : ℚ) := by
    have h := gregorianToJD_sub_epoch g
    rw [ethiopianToJD_adjusted, ethDayOfYear]
    push_cast
    linear_combination h
  simp only [gregorianToEthiopian, floor_gregorianToJD, gregorianToJD_sub_epoch, hy, hd,
    floor_month]
  congr 1
  push_cast
  ring

/-! ## Day counts of the Gregorian formula -/

/-- The year part of the formula grows by the length of the year: 366 in a leap year,
365 otherwise. -/
theorem year_step (y : ℤ) :
    1461 * (y + 4716) / 4 + (2 - y / 100 + y / 100 / 4)
      = 1461 * (y - 1 + 4716) / 4 + (2 - (y - 1) / 100 + (y - 1) / 100 / 4)
        + (if y % 4 = 0 ∧ (y % 100 ≠ 0 ∨ y % 400 = 0) then 366 else 365) := by
  split_ifs with h
  · omega
  · have h4 : y % 4 = 0 ∨ y % 4 = 1 ∨ y % 4 = 2 ∨ y % 4 = 3 := by omega
    rcases h4 with h4 | h4 | h4 | h4
    · omega
    all_goals
      have h100 : y % 100 ≠ 0 := by omega
      omega

theorem jdInt_mk (y m d : ℤ) (hy : 0 ≤ y) :
    jdInt ⟨y, m, d⟩ =
      1461 * ((if m + 1 < 3 then y - 1 else y) + 4716) / 4
        + 306001 * ((if m + 1 < 3 then m + 1 + 12 else m + 1) + 1) / 10000 + d
        + (2 - (if m + 1 < 3 then y - 1 else y) / 100
            + (if m + 1 < 3 then y - 1 else y) / 100 / 4) := by
  have hneg : ¬ y < 0 := by omega
  simp only [jdInt, hneg, if_false]

theorem jdInt_nextDay (d : JSDate) (hv : validGregorian d) (hy : 1 ≤ d.getFullYear) :
    jdInt (nextDay d) = jdInt d + 1 := by
  obtain ⟨y, m, dd⟩ := d
  simp only [validGregorian] at hv
  obtain ⟨h0, h11, h1, hlen⟩ := hv
  simp only at hy
  have hy0 : 0 ≤ y := by omega
  have hy1 : 0 ≤ y + 1 := by omega
  unfold nextDay
  dsimp only
  by_cases hlt : dd < daysInMonth y (m + 1)
  · rw [if_pos hlt, jdInt_mk _ _ _ hy0, jdInt_mk _ _ _ hy0]
    ring
  · rw [if_neg hlt]
    have hdd : dd = daysInMonth y (m + 1) := by omega
    by_cases hm : m < 11
    · rw [if_pos hm, jdInt_mk _ _ _ hy0, jdInt_mk _ _ _ hy0, hdd]
      have hs := year_step y
      unfold daysInMonth isLeapYear
      interval_cases m <;> norm_num <;> split_ifs at hs ⊢ <;> omega
    · rw [if_neg hm, jdInt_mk _ _ _ hy0, jdInt_mk _ _ _ hy1, hdd]
      have hm11 : m = 11 := by omega
      subst hm11
      unfold daysInMonth
      norm_num
      omega

/-- A valid date before December lies before the first of the next month. -/
theorem jdInt_lt_next_month (y m d : ℤ) (hy : 0 ≤ y) (hv : validGregorian ⟨y, m, d⟩)
    (hm : m < 11) : jdInt ⟨y, m, d⟩ < jdInt ⟨y, m + 1, 1⟩ := by
  simp only [validGregorian] at hv
  obtain ⟨h0, h11, h1, hlen⟩ := hv
  rw [jdInt_mk _ _ _ hy, jdInt_mk _ _ _ hy]
  have hs := year_step y
  unfold daysInMonth isLeapYear at hlen
  interval_cases m <;> norm_num at hlen ⊢ <;> split_ifs at hs hlen <;> omega

/-- The first of the month never moves back as the month grows within a year. -/
theorem month_start_mono (y m n : ℤ) (hy : 0 ≤ y) (h0 : 0 ≤ m) (hmn : m ≤ n) :
    jdInt ⟨y, m, 1⟩ ≤ jdInt ⟨y, n, 1⟩ := by
  rw [jdInt_mk _ _ _ hy, jdInt_mk _ _ _ hy]
  have hs := year_step y
  by_cases hm : m + 1 < 3
  · by_cases hn : n + 1 < 3
    · rw [if_pos hm, if_pos hm, if_pos hn, if_pos hn]
      omega
    · rw [if_pos hm, if_pos hm, if_neg hn, if_neg hn]
      split_ifs at hs <;> omega
  · have hn : ¬ n + 1 < 3 := by omega
    rw [if_neg hm, if_neg hm, if_neg hn, if_neg hn]
    omega

/-- Within one year (from year 0 on) a valid date of an earlier month has the smaller day
count. -/
theorem jdInt_lt_of_month_lt (y ma da mb db : ℤ) (hy : 0 ≤ y)
    (ha : validGregorian ⟨y, ma, da⟩) (hb : validGregorian ⟨y, mb, db⟩) (hlt : ma < mb) :
    jdInt ⟨y, ma, da⟩ < jdInt ⟨y, mb, db⟩ := by
  have hb11 : mb ≤ 11 := hb.2.1
  have ha0 : 0 ≤ ma := ha.1
  have hb1 : 1 ≤ db := hb.2.2.1
  have h1 := jdInt_lt_next_month y ma da hy ha (by omega)
  have h2 := month_start_mono y (ma + 1) mb hy (by omega) (by omega)
  have h3 : jdInt ⟨y, mb, 1⟩ ≤ jdInt ⟨y, mb, db⟩ := by
    rw [jdInt_mk _ _ _ hy, jdInt_mk _ _ _ hy]
    omega
  omega

/-- A valid date lies before January 1 of the next year. -/
theorem jdInt_lt_next_jan1 (y m d : ℤ) (hy : 0 ≤ y) (hv : validGregorian ⟨y, m, d⟩) :
    jdInt ⟨y, m, d⟩ < jdInt ⟨y + 1, 0, 1⟩ := by
  simp only [validGregorian] at hv
  obtain ⟨h0, h11, h1, hlen⟩ := hv
  have hy1 : 0 ≤ y + 1 := by omega
  rw [jdInt_mk _ _ _ hy, jdInt_mk _ _ _ hy1]
  have hs := year_step y
  unfold daysInMonth isLeapYear at hlen
  interval_cases m <;> norm_num at hlen ⊢ <;> split_ifs at hs hlen <;> omega

/-- A valid date lies on or after January 1 of its year. -/
theorem jan1_le_jdInt (y m d : ℤ) (hy : 0 ≤ y) (hv : validGregorian ⟨y, m, d⟩) :
    jdInt ⟨y, 0, 1⟩ ≤ jdInt ⟨y, m, d⟩ := by
  simp only [validGregorian] at hv
  obtain ⟨h0, h11, h1, -⟩ := hv
  rw [jdInt_mk _ _ _ hy, jdInt_mk _ _ _ hy]
  have hs := year_step y
  interval_cases m <;> norm_num <;> split_ifs at hs <;> omega

/-- January 1 never moves back as the year grows. -/
theorem jan1_mono (y z : ℤ) (hy : 0 ≤ y) (hyz : y ≤ z) :
    jdInt ⟨y, 0, 1⟩ ≤ jdInt ⟨z, 0, 1⟩ := by
  refine Int.le_induction (P := fun z => jdInt ⟨y, 0, 1⟩ ≤ jdInt ⟨z, 0, 1⟩) (le_refl _) ?_ z hyz
  intro k hk ih
  have hk0 : 0 ≤ k := by omega
  have hk1 : 0 ≤ k + 1 := by omega
  have hs := year_step k
  rw [jdInt_mk _ _ _ hk0] at ih
  rw [jdInt_mk _ _ _ hk1]
  norm_num at ih ⊢
  split_ifs at hs <;> omega

theorem jdInt_lt_of_earlier (a b : JSDate) (ha : validGregorian a) (hb : validGregorian b)
    (hya : 0 ≤ a.getFullYear) (hyb : 0 ≤ b.getFullYear) (h : a.earlier b) :
    jdInt a < jdInt b := by
  obtain ⟨ya, ma, da⟩ := a
  obtain ⟨yb, mb, db⟩ := b
  simp only at hya hyb
  simp only [JSDate.earlier] at h
  rcases h with h | ⟨h, h2 | ⟨h2, h3⟩⟩
  · have h1 := jdInt_lt_next_jan1 ya ma da hya ha
    have h2 := jan1_mono (ya + 1) yb (by omega) (by omega)
    have h3 := jan1_le_jdInt yb mb db hyb hb
    omega
  · subst h
    exact jdInt_lt_of_month_lt ya ma da mb db hya ha hb h2
  · subst h
    subst h2
    rw [jdInt_mk _ _ _ hya, jdInt_mk _ _ _ hya]
    omega

theorem gregorianToJD_lt_of_earlier (a b : JSDate) (ha : validGregorian a)
    (hb : validGregorian b) (hya : 0 ≤ a.getFullYear) (hyb : 0 ≤ b.getFullYear)
    (h : a.earlier b) : gregorianToJD a < gregorianToJD b := by
  have h1 := jdInt_lt_of_earlier a b ha hb hya hyb h
  rw [gregorianToJD_eq, gregorianToJD_eq]
  have h2 : (jdInt a : ℚ) < (jdInt b : ℚ) := by exact_mod_cast h1
  linarith

theorem earlier_or_eq_or_later (a b : JSDate) : a.earlier b ∨ a = b ∨ b.earlier a := by
  obtain ⟨ya, ma, da⟩ := a
  obtain ⟨yb, mb, db⟩ := b
  simp only [JSDate.earlier, JSDate.mk.injEq]
  omega

theorem gregorianToJD_injective (a b : JSDate) (ha : validGregorian a)
    (hb : validGregorian b) (hya : 0 ≤ a.getFullYear) (hyb : 0 ≤ b.getFullYear)
    (h : gregorianToJD a = gregorianToJD b) : a = b := by
  rcases earlier_or_eq_or_later a b with h1 | h1 | h1
  · have := gregorianToJD_lt_of_earlier a b ha hb hya hyb h1
    linarith
  · exact h1
  · have := gregorianToJD_lt_of_earlier b a hb ha hyb hya h1
    linarith

/-! ## The `Date` model and the month grid -/

theorem dayFromYear_succ (y : ℤ) : dayFromYear (y + 1) = dayFromYear y + daysInYear y := by
  unfold dayFromYear daysInYear
  split_ifs <;> omega

theorem yearFromDay_spec (t : ℤ) :
    dayFromYear (yearFromDay t) ≤ t ∧ t < dayFromYear (yearFromDay t + 1) := by
  unfold yearFromDay
  dsimp only
  split_ifs with h1 h2
  · refine ⟨h1, ?_⟩
    unfold dayFromYear at h1 ⊢
    omega
  · exact ⟨h2, by omega⟩
  · constructor
    · unfold dayFromYear at h1 h2 ⊢
      omega
    · rw [show 1970 + t * 400 / 146097 - 1 + 1 = 1970 + t * 400 / 146097 by ring]
      omega


theorem daysInYear_pos (y : ℤ) : 365 ≤ daysInYear y ∧ daysInYear y ≤ 366 := by
  unfold daysInYear
  split_ifs <;> omega

theorem dayFromYear_mono (y z : ℤ) (h : y ≤ z) : dayFromYear y ≤ dayFromYear z := by
  refine Int.le_induction (P := fun z => dayFromYear y ≤ dayFromYear z) (le_refl _) ?_ z h
  intro k _ ih
  have h1 := dayFromYear_succ k
  have h2 := daysInYear_pos k
  omega

/-- The year `yearFromDay t` is the only year whose days include `t`. -/
theorem yearFromDay_unique (t y : ℤ) (h1 : dayFromYear y ≤ t) (h2 : t < dayFromYear (y + 1)) :
    yearFromDay t = y := by
  obtain ⟨h3, h4⟩ := yearFromDay_spec t
  by_contra hne
  rcases lt_or_gt_of_ne hne with h | h
  · have := dayFromYear_mono (yearFromDay t + 1) y (by omega)
    omega
  · have := dayFromYear_mono (y + 1) (yearFromDay t) (by omega)
    omega

theorem dayWithinYear_range (t : ℤ) :
    0 ≤ dayWithinYear t ∧ dayWithinYear t < 365 + inLeapYear t := by
  obtain ⟨h1, h2⟩ := yearFromDay_spec t
  have h3 := dayFromYear_succ (yearFromDay t)
  have h4 := daysInYear_pos (yearFromDay t)
  unfold dayWithinYear inLeapYear
  split_ifs <;> omega

theorem inLeapYear_range (t : ℤ) : inLeapYear t = 0 ∨ inLeapYear t = 1 := by
  unfold inLeapYear
  split_ifs <;> simp

theorem monthFromDay_range (t : ℤ) : 0 ≤ monthFromDay t ∧ monthFromDay t ≤ 11 := by
  unfold monthFromDay
  dsimp only
  omega

theorem dateFromDay_range (t : ℤ) : 1 ≤ dateFromDay t ∧ dateFromDay t ≤ 31 := by
  have h1 := dayWithinYear_range t
  have h2 := inLeapYear_range t
  unfold dateFromDay monthFromDay monthStart
  dsimp only
  omega

/-- Function `makeDay` at the year and month of day `t` offsets `t` by the change of the date. -/
theorem makeDay_fields (t d : ℤ) :
    makeDay (yearFromDay t) (monthFromDay t) d = t - dateFromDay t + d := by
  have hm := monthFromDay_range t
  have h1 : monthFromDay t / 12 = 0 := by omega
  have h2 : monthFromDay t % 12 = monthFromDay t := by omega
  unfold makeDay
  dsimp only
  rw [h1, h2, add_zero]
  unfold dateFromDay dayWithinYear inLeapYear
  ring

/-- Calling `setDate` with the current date plus `k` moves the `Date` by `k` days. -/
theorem setDate_add (t k : ℤ) : setDate t (dateFromDay t + k) = t + k := by
  unfold setDate
  rw [makeDay_fields]
  ring

theorem setDate_sub (t k : ℤ) : setDate t (dateFromDay t - k) = t - k := by
  unfold setDate
  rw [makeDay_fields]
  ring

theorem renderDays_length (viewDate firstDayOfWeek : ℤ) (selectedDate : Option ℤ)
    (currentDate : ℤ) : (renderDays viewDate firstDayOfWeek selectedDate currentDate).length = 42 := by
  simp [renderDays]

theorem weekDay_gridStart_add (viewDate firstDayOfWeek : ℤ) (h0 : 0 ≤ firstDayOfWeek)
    (h6 : firstDayOfWeek ≤ 6) (i : ℕ) :
    weekDay (gridStart viewDate firstDayOfWeek + i) = (firstDayOfWeek + i) % 7 := by
  unfold gridStart
  generalize newDate (yearFromDay viewDate) (monthFromDay viewDate) 1 = f
  have hw : 0 ≤ weekDay f ∧ weekDay f < 7 := by
    unfold weekDay
    omega
  rw [Int.tmod_eq_emod (by omega) (by norm_num)]
  unfold weekDay at hw ⊢
  omega

theorem leapFlag_range (y : ℤ) : leapFlag y = 0 ∨ leapFlag y = 1 := by
  unfold leapFlag
  split_ifs <;> simp

theorem daysInYear_eq (y : ℤ) : daysInYear y = 365 + leapFlag y := by
  have h := daysInYear_pos y
  unfold leapFlag
  split_ifs <;> omega

theorem isLeapYear_iff (y : ℤ) : isLeapYear y ↔ leapFlag y = 1 := by
  unfold isLeapYear leapFlag daysInYear
  omega

theorem daysInMonth_eq (y k : ℤ) :
    daysInMonth y k = if k = 2 then 28 + leapFlag y
      else if k = 4 ∨ k = 6 ∨ k = 9 ∨ k = 11 then 30 else 31 := by
  have h := isLeapYear_iff y
  have h01 := leapFlag_range y
  unfold daysInMonth
  by_cases hl : isLeapYear y
  · rw [if_pos hl, h.mp hl]
    rfl
  · have : leapFlag y = 0 := by
      rcases h01 with h0 | h1
      · exact h0
      · exact absurd (h.mpr h1) hl
    rw [if_neg hl, this]
    rfl

theorem makeDay_of_month (y m d : ℤ) (h0 : 0 ≤ m) (h11 : m ≤ 11) :
    makeDay y m d = dayFromYear y + monthStart m (leapFlag y) + d - 1 := by
  have h1 : m / 12 = 0 := by omega
  have h2 : m % 12 = m := by omega
  unfold makeDay leapFlag
  dsimp only
  rw [h1, h2, add_zero]

/-- The fields of `makeDay y m d` are `y`, `m`, `d` on a valid date. -/
theorem fieldsOfDay_makeDay (y m d : ℤ) (hv : validGregorian ⟨y, m, d⟩) :
    fieldsOfDay (makeDay y m d) = ⟨y, m, d⟩ := by
  simp only [validGregorian] at hv
  obtain ⟨h0, h11, h1, hlen⟩ := hv
  rw [daysInMonth_eq] at hlen
  have h01 := leapFlag_range y
  have hdy := daysInYear_eq y
  have hsucc := dayFromYear_succ y
  have hmk := makeDay_of_month y m d h0 h11
  have hY : yearFromDay (makeDay y m d) = y := by
    apply yearFromDay_unique
    · rw [hmk]
      unfold monthStart
      omega
    · rw [hmk, hsucc, hdy]
      unfold monthStart
      omega
  have hL : inLeapYear (makeDay y m d) = leapFlag y := by
    unfold inLeapYear leapFlag
    rw [hY]
  have hW : dayWithinYear (makeDay y m d) = monthStart m (leapFlag y) + d - 1 := by
    unfold dayWithinYear
    rw [hY, hmk]
    ring
  have hM : monthFromDay (makeDay y m d) = m := by
    unfold monthFromDay
    rw [hW, hL]
    dsimp only
    generalize leapFlag y = l at h01 hlen ⊢
    interval_cases m <;> norm_num [monthStart] at hlen ⊢ <;> omega
  unfold fieldsOfDay
  rw [hY, hM]
  congr 1
  unfold dateFromDay
  rw [hW, hL, hM]
  ring

theorem inLeapYear_eq (t : ℤ) : inLeapYear t = leapFlag (yearFromDay t) := rfl

/-- The fields of every day form a valid date. -/
theorem validGregorian_fieldsOfDay (t : ℤ) : validGregorian (fieldsOfDay t) := by
  have hr := monthFromDay_range t
  have hd := dateFromDay_range t
  refine ⟨hr.1, hr.2, hd.1, ?_⟩
  show dateFromDay t ≤ daysInMonth (yearFromDay t) (monthFromDay t + 1)
  rw [daysInMonth_eq]
  have hw := dayWithinYear_range t
  have h01 := leapFlag_range (yearFromDay t)
  unfold dateFromDay
  rw [inLeapYear_eq] at hw ⊢
  obtain ⟨m, hm⟩ : ∃ m, monthFromDay t = m := ⟨_, rfl⟩
  rw [hm] at hr ⊢
  unfold monthFromDay at hm
  rw [inLeapYear_eq] at hm
  dsimp only at hm
  generalize dayWithinYear t = w at hw hm ⊢
  generalize leapFlag (yearFromDay t) = l at hw hm h01 ⊢
  obtain ⟨hr0, hr11⟩ := hr
  interval_cases m <;> norm_num [monthStart] <;> omega

/-- Every day is `makeDay` of its own fields. -/
theorem makeDay_fieldsOfDay (t : ℤ) :
    makeDay (fieldsOfDay t).getFullYear (fieldsOfDay t).getMonth (fieldsOfDay t).getDate = t := by
  show makeDay (yearFromDay t) (monthFromDay t) (dateFromDay t) = t
  rw [makeDay_fields]
  ring

theorem fieldsOfDay_injective (s t : ℤ) (h : fieldsOfDay s = fieldsOfDay t) : s = t := by
  rw [← makeDay_fieldsOfDay s, ← makeDay_fieldsOfDay t, h]

/-- Day numbers count calendar days: the fields of day `t + 1` are the next calendar day
after the fields of day `t`. -/
theorem fieldsOfDay_succ (t : ℤ) : fieldsOfDay (t + 1) = nextDay (fieldsOfDay t) := by
  have hv := validGregorian_fieldsOfDay t
  have hmk := makeDay_fieldsOfDay t
  rcases hf : fieldsOfDay t with ⟨y, m, d⟩
  rw [hf] at hv hmk
  dsimp only at hmk
  obtain ⟨h0, h11, h1, hlen⟩ := hv
  dsimp only at h0 h11 h1 hlen
  have ht : t + 1 = makeDay y m (d + 1) := by
    rw [makeDay_of_month _ _ _ h0 h11] at hmk ⊢
    omega
  unfold nextDay
  dsimp only
  by_cases hlt : d < daysInMonth y (m + 1)
  · rw [if_pos hlt, ht]
    exact fieldsOfDay_makeDay y m (d + 1) ⟨h0, h11, by dsimp only; omega, by dsimp only; omega⟩
  · rw [if_neg hlt]
    have hd : d = daysInMonth y (m + 1) := by omega
    by_cases hm : m < 11
    · rw [if_pos hm]
      have h2 : t + 1 = makeDay y (m + 1) 1 := by
        rw [ht, makeDay_of_month _ _ _ h0 h11, makeDay_of_month _ _ _ (by omega) (by omega), hd,
          daysInMonth_eq]
        generalize leapFlag y = l
        interval_cases m <;> norm_num [monthStart] <;> omega
      rw [h2]
      refine fieldsOfDay_makeDay y (m + 1) 1 ⟨by dsimp only; omega, by dsimp only; omega,
        by dsimp only; omega, ?_⟩
      dsimp only
      rw [daysInMonth_eq]
      have := leapFlag_range y
      omega
    · rw [if_neg hm]
      have hm11 : m = 11 := by omega
      subst hm11
      have h2 : t + 1 = makeDay (y + 1) 0 1 := by
        rw [ht, makeDay_of_month _ _ _ h0 h11, makeDay_of_month _ _ _ (le_refl 0) (by omega), hd,
          daysInMonth_eq, dayFromYear_succ, daysInYear_eq]
        norm_num [monthStart]
        omega
      rw [h2]
      exact fieldsOfDay_makeDay (y + 1) 0 1 (by
        refine ⟨le_refl 0, by norm_num, le_refl 1, ?_⟩
        dsimp only
        rw [daysInMonth_eq]
        norm_num)


/-- The cells of `renderDays` as one `map` over the cell index, with `setDate` resolved. -/
theorem renderDays_eq_map (viewDate firstDayOfWeek : ℤ) (selectedDate : Option ℤ)
    (currentDate : ℤ) :
    renderDays viewDate firstDayOfWeek selectedDate currentDate =
      (List.range 42).map fun (i : ℕ) =>
        { key := i
          currentDate := gridStart viewDate firstDayOfWeek + i
          label := dateFromDay (gridStart viewDate firstDayOfWeek + i)
          isCurrentMonth :=
            decide (monthFromDay (gridStart viewDate firstDayOfWeek + i) = monthFromDay viewDate)
          isToday := isSameDay (gridStart viewDate firstDayOfWeek + i)
            (gridStart viewDate firstDayOfWeek + i)
          isSelected :=
            match selectedDate with
            | none => false
            | some selected => isSameDay (gridStart viewDate firstDayOfWeek + i) selected
          isWeekend := decide (weekDay (gridStart viewDate firstDayOfWeek + i) = 0)
            || decide (weekDay (gridStart viewDate firstDayOfWeek + i) = 6) } := by
  simp only [renderDays, setDate_sub, setDate_add]
  rfl

theorem renderDays_dates (viewDate firstDayOfWeek : ℤ) (selectedDate : Option ℤ)
    (currentDate : ℤ) :
    (renderDays viewDate firstDayOfWeek selectedDate currentDate).map (fun c => c.currentDate)
      = (List.range 42).map fun (i : ℕ) => gridStart viewDate firstDayOfWeek + i := by
  rw [renderDays_eq_map, List.map_map]
  rfl

theorem gridStart_range (viewDate firstDayOfWeek : ℤ) (h0 : 0 ≤ firstDayOfWeek)
    (h6 : firstDayOfWeek ≤ 6) :
    newDate (yearFromDay viewDate) (monthFromDay viewDate) 1 - 6 ≤ gridStart viewDate firstDayOfWeek
      ∧ gridStart viewDate firstDayOfWeek
        ≤ newDate (yearFromDay viewDate) (monthFromDay viewDate) 1 := by
  unfold gridStart
  generalize newDate (yearFromDay viewDate) (monthFromDay viewDate) 1 = f
  have hw : 0 ≤ weekDay f ∧ weekDay f < 7 := by
    unfold weekDay
    omega
  rw [Int.tmod_eq_emod (by omega) (by norm_num)]
  omega

/-- A day within 6 days before and 41 days after the first of month `m` of year `y`
that falls in a month `m` falls in year `y`. -/
theorem year_eq_of_month_eq (y m t : ℤ) (h0 : 0 ≤ m) (h11 : m ≤ 11)
    (hlo : makeDay y m 1 - 6 ≤ t) (hhi : t ≤ makeDay y m 1 + 41)
    (hm : monthFromDay t = m) : yearFromDay t = y := by
  rw [makeDay_of_month _ _ _ h0 h11] at hlo hhi
  obtain ⟨h1, h2⟩ := yearFromDay_spec t
  have hw := dayWithinYear_range t
  have hl := leapFlag_range y
  have hlt := leapFlag_range (yearFromDay t)
  unfold monthFromDay at hm
  rw [inLeapYear_eq] at hm hw
  dsimp only at hm
  unfold dayWithinYear at hm hw
  by_contra hne
  rcases lt_or_gt_of_ne hne with h | h
  · have h3 := dayFromYear_mono (yearFromDay t + 1) y (by omega)
    have h4 := dayFromYear_succ (yearFromDay t)
    have h5 := daysInYear_eq (yearFromDay t)
    generalize leapFlag (yearFromDay t) = lt at *
    generalize leapFlag y = l at *
    generalize dayFromYear (yearFromDay t) = a at *
    generalize dayFromYear y = b at *
    interval_cases m <;> norm_num [monthStart] at hlo hhi <;> omega
  · have h3 := dayFromYear_mono (y + 1) (yearFromDay t) (by omega)
    have h4 := dayFromYear_succ y
    have h5 := daysInYear_eq y
    generalize leapFlag (yearFromDay t) = lt at *
    generalize leapFlag y = l at *
    generalize dayFromYear (yearFromDay t) = a at *
    generalize dayFromYear y = b at *
    interval_cases m <;> norm_num [monthStart] at hlo hhi <;> omega

theorem newDate_of_four_digit (year month date : ℤ) (hy : year < 0 ∨ 99 < year) :
    newDate year month date = makeDay year month date := by
  unfold newDate
  rw [if_neg (by omega)]

theorem makeDay_date (y m d : ℤ) : makeDay y m d = makeDay y m 1 + (d - 1) := by
  unfold makeDay
  ring

/-- For a view date whose year is outside 0..99, the grid shows the viewed month: each of
its days appears in exactly one cell, and a cell is flagged `isCurrentMonth` exactly when
its date has the year and the month of the view date. -/
theorem renderDays_shows_view_month (viewDate firstDayOfWeek : ℤ) (selectedDate : Option ℤ)
    (currentDate : ℤ) (h0 : 0 ≤ firstDayOfWeek) (h6 : firstDayOfWeek ≤ 6)
    (hy : yearFromDay viewDate < 0 ∨ 99 < yearFromDay viewDate) :
    (∀ d : ℤ, 1 ≤ d → d ≤ daysInMonth (yearFromDay viewDate) (monthFromDay viewDate + 1) →
      ((renderDays viewDate firstDayOfWeek selectedDate currentDate).map
        (fun c => fieldsOfDay c.currentDate)).count
          ⟨yearFromDay viewDate, monthFromDay viewDate, d⟩ = 1) ∧
    (∀ c ∈ renderDays viewDate firstDayOfWeek selectedDate currentDate,
      c.isCurrentMonth = true ↔
        ((fieldsOfDay c.currentDate).getFullYear = yearFromDay viewDate ∧
          (fieldsOfDay c.currentDate).getMonth = monthFromDay viewDate)) := by
  have hm := monthFromDay_range viewDate
  have hg := gridStart_range viewDate firstDayOfWeek h0 h6
  rw [newDate_of_four_digit _ _ _ hy] at hg
  constructor
  · intro d hd1 hd2
    have hlen : d ≤ 31 := by
      rw [daysInMonth_eq] at hd2
      have := leapFlag_range (yearFromDay viewDate)
      omega
    apply List.count_eq_one_of_mem
    · rw [renderDays_eq_map, List.map_map]
      refine List.Nodup.map ?_ (List.nodup_range 42)
      intro i j hij
      have e : gridStart viewDate firstDayOfWeek + (i : ℤ)
          = gridStart viewDate firstDayOfWeek + (j : ℤ) := fieldsOfDay_injective _ _ hij
      omega
    · rw [renderDays_eq_map, List.map_map, List.mem_map]
      refine ⟨(makeDay (yearFromDay viewDate) (monthFromDay viewDate) 1
          - gridStart viewDate firstDayOfWeek + (d - 1)).toNat, ?_, ?_⟩
      · rw [List.mem_range]
        omega
      · have e : gridStart viewDate firstDayOfWeek
            + (((makeDay (yearFromDay viewDate) (monthFromDay viewDate) 1
              - gridStart viewDate firstDayOfWeek + (d - 1)).toNat : ℕ) : ℤ)
            = makeDay (yearFromDay viewDate) (monthFromDay viewDate) d := by
          rw [makeDay_date _ _ d]
          omega
        show fieldsOfDay (gridStart viewDate firstDayOfWeek + _) = _
        rw [e]
        exact fieldsOfDay_makeDay _ _ _ ⟨hm.1, hm.2, hd1, hd2⟩
  · intro c hc
    rw [renderDays_eq_map, List.mem_map] at hc
    obtain ⟨i, hi, rfl⟩ := hc
    rw [List.mem_range] at hi
    show decide (monthFromDay (gridStart viewDate firstDayOfWeek + i) = monthFromDay viewDate)
        = true ↔ yearFromDay (gridStart viewDate firstDayOfWeek + i) = yearFromDay viewDate ∧
          monthFromDay (gridStart viewDate firstDayOfWeek + i) = monthFromDay viewDate
    rw [decide_eq_true_iff]
    constructor
    · intro h
      exact ⟨year_eq_of_month_eq _ _ _ hm.1 hm.2 (by omega) (by omega) h, h⟩
    · exact fun h => h.2

theorem renderDays_shows_view_month_witness :
    ((renderDays 19977 1 none 19977).map (fun c => fieldsOfDay c.currentDate)).count
      ⟨2024, 8, 30⟩ = 1 :=
  (renderDays_shows_view_month 19977 1 none 19977 (by decide) (by decide) (by decide)).1
    30 (by decide) (by decide)

/-! ## Flags of the grid, the Ethiopian year, the Islamic conversion and formatting -/

theorem isSameDay_self (d : ℤ) : isSameDay d d = true := by
  simp [isSameDay]

theorem renderDays_weekend_flags (viewDate firstDayOfWeek : ℤ) (selectedDate : Option ℤ)
    (currentDate : ℤ) (h0 : 0 ≤ firstDayOfWeek) (h6 : firstDayOfWeek ≤ 6) :
    (renderDays viewDate firstDayOfWeek selectedDate currentDate).map (fun c => c.isWeekend)
      = (List.range 42).map (fun (i : ℕ) =>
          decide ((firstDayOfWeek + i) % 7 = 0) || decide ((firstDayOfWeek + i) % 7 = 6)) := by
  rw [renderDays_eq_map, List.map_map]
  apply List.map_congr_left
  intro i _
  show (decide (weekDay (gridStart viewDate firstDayOfWeek + i) = 0)
      || decide (weekDay (gridStart viewDate firstDayOfWeek + i) = 6)) = _
  rw [weekDay_gridStart_add viewDate firstDayOfWeek h0 h6 i]

theorem gridStart_mod_seven (viewDate firstDayOfWeek : ℤ) (h7 : firstDayOfWeek ≤ 7) :
    gridStart viewDate firstDayOfWeek = gridStart viewDate (firstDayOfWeek % 7) := by
  unfold gridStart
  generalize newDate (yearFromDay viewDate) (monthFromDay viewDate) 1 = f
  have hw : 0 ≤ weekDay f ∧ weekDay f < 7 := by
    unfold weekDay
    omega
  rw [Int.tmod_eq_emod (by omega) (by norm_num), Int.tmod_eq_emod (by omega) (by norm_num)]
  omega

/-- For a `firstDayOfWeek` of at most 7 (negative values included) the grid is the grid of
`firstDayOfWeek mod 7`. -/
theorem renderDays_mod_seven (viewDate firstDayOfWeek : ℤ) (selectedDate : Option ℤ)
    (currentDate : ℤ) (h7 : firstDayOfWeek ≤ 7) :
    renderDays viewDate firstDayOfWeek selectedDate currentDate
      = renderDays viewDate (firstDayOfWeek % 7) selectedDate currentDate := by
  rw [renderDays_eq_map, renderDays_eq_map, gridStart_mod_seven viewDate firstDayOfWeek h7]

theorem renderDays_mod_seven_witness :
    renderDays 19977 (-6) none 19977 = renderDays 19977 (-6 % 7) none 19977 :=
  renderDays_mod_seven 19977 (-6) none 19977 (by decide)

theorem filter_range_interval (N k n : ℕ) (h : k + n ≤ N) :
    (List.range N).filter (fun i => decide (k ≤ i ∧ i < k + n)) = List.range' k n := by
  have e : List.range N = (List.range' 0 k ++ List.range' k n) ++ List.range' (k + n) (N - (k + n)) := by
    rw [List.range_eq_range']
    have e1 : List.range' 0 k ++ List.range' k n = List.range' 0 (n + k) := by
      have := List.range'_append_1 0 k n
      simpa using this
    rw [e1]
    have e2 := List.range'_append_1 0 (n + k) (N - (k + n))
    rw [show 0 + (n + k) = k + n by omega] at e2
    rw [e2]
    congr 1
    omega
  rw [e, List.filter_append, List.filter_append]
  have f1 : (List.range' 0 k).filter (fun i => decide (k ≤ i ∧ i < k + n)) = [] := by
    rw [List.filter_eq_nil_iff]
    intro a ha
    rw [List.mem_range'_1] at ha
    simp only [decide_eq_true_eq]
    omega
  have f2 : (List.range' k n).filter (fun i => decide (k ≤ i ∧ i < k + n)) = List.range' k n := by
    rw [List.filter_eq_self]
    intro a ha
    rw [List.mem_range'_1] at ha
    simp only [decide_eq_true_eq]
    omega
  have f3 : (List.range' (k + n) (N - (k + n))).filter (fun i => decide (k ≤ i ∧ i < k + n))
      = [] := by
    rw [List.filter_eq_nil_iff]
    intro a ha
    rw [List.mem_range'_1] at ha
    simp only [decide_eq_true_eq]
    omega
  rw [f1, f2, f3]
  simp

/-- A day has month `m` of year `y` exactly when it lies between the first of that month
and its last day. -/
theorem month_eq_iff_in_month (y m t : ℤ) (h0 : 0 ≤ m) (h11 : m ≤ 11)
    (hlo : makeDay y m 1 - 6 ≤ t) (hhi : t ≤ makeDay y m 1 + 41) :
    monthFromDay t = m ↔ (makeDay y m 1 ≤ t ∧ t < makeDay y m 1 + daysInMonth y (m + 1)) := by
  constructor
  · intro hm
    have hy := year_eq_of_month_eq y m t h0 h11 hlo hhi hm
    have hv := validGregorian_fieldsOfDay t
    have hmk := makeDay_fieldsOfDay t
    obtain ⟨-, -, hd1, hd2⟩ := hv
    change 1 ≤ dateFromDay t at hd1
    change dateFromDay t ≤ daysInMonth (yearFromDay t) (monthFromDay t + 1) at hd2
    change makeDay (yearFromDay t) (monthFromDay t) (dateFromDay t) = t at hmk
    rw [hy, hm] at hd2 hmk
    rw [makeDay_date] at hmk
    omega
  · intro ⟨h1, h2⟩
    have e : t = makeDay y m (t - makeDay y m 1 + 1) := by
      rw [makeDay_date y m (t - makeDay y m 1 + 1)]
      ring
    have hf := fieldsOfDay_makeDay y m (t - makeDay y m 1 + 1)
      ⟨h0, h11, by dsimp only; omega, by dsimp only; omega⟩
    rw [← e] at hf
    exact congrArg JSDate.getMonth hf

theorem daysInMonth_range (y k : ℤ) : 28 ≤ daysInMonth y k ∧ daysInMonth y k ≤ 31 := by
  rw [daysInMonth_eq]
  have := leapFlag_range y
  split_ifs <;> omega

theorem renderDays_flagged_days (viewDate firstDayOfWeek : ℤ) (selectedDate : Option ℤ)
    (currentDate : ℤ) :
    ((renderDays viewDate firstDayOfWeek selectedDate currentDate).filter
        (fun c => c.isCurrentMonth)).map (fun c => fieldsOfDay c.currentDate)
      = ((List.range 42).filter (fun (i : ℕ) => decide
          (monthFromDay (gridStart viewDate firstDayOfWeek + i) = monthFromDay viewDate))).map
          (fun (i : ℕ) => fieldsOfDay (gridStart viewDate firstDayOfWeek + i)) := by
  rw [renderDays_eq_map, List.filter_map, List.map_map]
  rfl

/-- The year estimate of `gregorianToEthiopian` is the year whose days include the count. -/
theorem ethYearOfCount_unique (c y : ℤ) (h1 : (y - 1) * 365 + y / 4 ≤ c)
    (h2 : c < y * 365 + (y + 1) / 4) : ethYearOfCount c = y := by
  unfold ethYearOfCount
  omega

/-- Day count of Ethiopian new year in the Gregorian years 1900..2099. -/
theorem epochCount_newYear (y : ℤ) (h1 : 1900 ≤ y) (h2 : y ≤ 2099) :
    epochCount ⟨y, 8, if (y + 1) % 4 = 0 then 12 else 11⟩ = (y - 8) * 365 + (y - 7) / 4 := by
  unfold epochCount
  rw [jdInt_mk _ _ _ (by omega)]
  norm_num
  have hc : y / 100 = 19 ∨ y / 100 = 20 := by omega
  have h4 : y % 4 = 0 ∨ y % 4 = 1 ∨ y % 4 = 2 ∨ y % 4 = 3 := by omega
  rcases hc with hc | hc <;> rcases h4 with h4 | h4 | h4 | h4 <;> omega

theorem jdInt_le_of_not_later (a b : JSDate) (ha : validGregorian a) (hb : validGregorian b)
    (hya : 0 ≤ a.getFullYear) (hyb : 0 ≤ b.getFullYear) (h : ¬ b.earlier a) :
    jdInt a ≤ jdInt b := by
  rcases earlier_or_eq_or_later a b with h1 | h1 | h1
  · exact le_of_lt (jdInt_lt_of_earlier a b ha hb hya hyb h1)
  · rw [h1]
  · exact absurd h1 h

theorem epochCount_december_end (y : ℤ) (h1 : 1900 ≤ y) (h2 : y ≤ 2099) :
    epochCount ⟨y, 11, 31⟩ < (y - 7) * 365 + (y - 6) / 4 := by
  unfold epochCount
  rw [jdInt_mk _ _ _ (by omega)]
  norm_num
  have hc : y / 100 = 19 ∨ y / 100 = 20 := by omega
  have h4 : y % 4 = 0 ∨ y % 4 = 1 ∨ y % 4 = 2 ∨ y % 4 = 3 := by omega
  rcases hc with hc | hc <;> rcases h4 with h4 | h4 | h4 | h4 <;> omega

theorem validGregorian_newYear (y : ℤ) :
    validGregorian ⟨y, 8, if (y + 1) % 4 = 0 then 12 else 11⟩ := by
  refine ⟨by norm_num, by norm_num, ?_, ?_⟩
  · dsimp only
    split_ifs <;> norm_num
  · dsimp only
    rw [daysInMonth_eq]
    norm_num
    split_ifs <;> norm_num

theorem validGregorian_december_end (y : ℤ) : validGregorian ⟨y, 11, 31⟩ := by
  refine ⟨by norm_num, by norm_num, by norm_num, ?_⟩
  dsimp only
  rw [daysInMonth_eq]
  norm_num

theorem earlier_mk (y m d z n e : ℤ) :
    JSDate.earlier ⟨y, m, d⟩ ⟨z, n, e⟩ ↔ (y < z ∨ (y = z ∧ (m < n ∨ (m = n ∧ d < e)))) :=
  Iff.rfl

theorem onOrAfterNewYear_mk (y m d : ℤ) :
    onOrAfterNewYear ⟨y, m, d⟩ ↔
      (8 < m ∨ (m = 8 ∧ (if (y + 1) % 4 = 0 then 12 else 11) ≤ d)) :=
  Iff.rfl

theorem ethYear_1901_2099 (g : JSDate) (hv : validGregorian g) (h1 : 1901 ≤ g.getFullYear)
    (h2 : g.getFullYear ≤ 2099) :
    ethYearOfCount (epochCount g)
      = if onOrAfterNewYear g then g.getFullYear - 7 else g.getFullYear - 8 := by
  obtain ⟨y, m, d⟩ := g
  dsimp only at h1 h2 ⊢
  have hv0 := hv
  simp only [validGregorian] at hv0
  obtain ⟨h0, h11, hd1, hlen⟩ := hv0
  rw [daysInMonth_eq] at hlen
  have hl := leapFlag_range y
  have hny := epochCount_newYear y (by omega) h2
  have hny1 := epochCount_newYear (y - 1) (by omega) (by omega)
  have hdec := epochCount_december_end y (by omega) h2
  have hvn := validGregorian_newYear y
  have hvn1 := validGregorian_newYear (y - 1)
  have hvd := validGregorian_december_end y
  unfold epochCount at hny hny1 hdec ⊢
  by_cases hon : onOrAfterNewYear ⟨y, m, d⟩
  · rw [if_pos hon]
    rw [onOrAfterNewYear_mk] at hon
    have hlo := jdInt_le_of_not_later ⟨y, 8, if (y + 1) % 4 = 0 then 12 else 11⟩ ⟨y, m, d⟩
      hvn hv (by dsimp only; omega) (by dsimp only; omega) (by
        rw [earlier_mk]
        omega)
    have hhi := jdInt_le_of_not_later ⟨y, m, d⟩ ⟨y, 11, 31⟩ hv hvd
      (by dsimp only; omega) (by dsimp only; omega) (by
        rw [earlier_mk]
        omega)
    apply ethYearOfCount_unique <;> omega
  · rw [if_neg hon]
    rw [onOrAfterNewYear_mk] at hon
    have hhi := jdInt_lt_of_earlier ⟨y, m, d⟩ ⟨y, 8, if (y + 1) % 4 = 0 then 12 else 11⟩
      hv hvn (by dsimp only; omega) (by dsimp only; omega) (by
        rw [earlier_mk]
        omega)
    have hlo := jdInt_le_of_not_later ⟨y - 1, 8, if (y - 1 + 1) % 4 = 0 then 12 else 11⟩
      ⟨y, m, d⟩ hvn1 hv (by dsimp only; omega) (by dsimp only; omega) (by
        rw [earlier_mk]
        omega)
    apply ethYearOfCount_unique <;> omega

theorem floor_days_diff (n : ℤ) :
    ⌊((n : ℤ) : ℚ) / (1000 * 60 * 60 * 24)⌋ = n / 86400000 := by
  have h := Rat.floor_intCast_div_natCast n 86400000
  have e : ((n : ℤ) : ℚ) / (1000 * 60 * 60 * 24) = ((n : ℤ) : ℚ) / ((86400000 : ℕ) : ℚ) := by
    norm_num
  rw [e, h]
  rfl

theorem floor_islamic_year (n : ℤ) : ⌊(n : ℚ) / 354.37⌋ = 100 * n / 35437 := by
  have h := Rat.floor_intCast_div_natCast (100 * n) 35437
  have e : (n : ℚ) / 354.37 = ((100 * n : ℤ) : ℚ) / ((35437 : ℕ) : ℚ) := by
    push_cast
    norm_num
    ring
  rw [e, h]
  rfl

theorem floor_islamic_year_start (y : ℤ) :
    ⌊((y : ℚ) - 1) * 354.37⌋ = 35437 * (y - 1) / 100 := by
  have h := Rat.floor_intCast_div_natCast (35437 * (y - 1)) 100
  have e : ((y : ℚ) - 1) * 354.37 = ((35437 * (y - 1) : ℤ) : ℚ) / ((100 : ℕ) : ℚ) := by
    push_cast
    norm_num
    ring
  rw [e, h]
  rfl

theorem floor_islamic_month (n : ℤ) : ⌊(n : ℚ) / 29.53⌋ = 100 * n / 2953 := by
  have h := Rat.floor_intCast_div_natCast (100 * n) 2953
  have e : (n : ℚ) / 29.53 = ((100 * n : ℤ) : ℚ) / ((2953 : ℕ) : ℚ) := by
    push_cast
    norm_num
    ring
  rw [e, h]
  rfl

theorem floor_islamic_day (n m : ℤ) :
    ⌊(n : ℚ) - ((m : ℚ) - 1) * 29.53⌋ = (100 * n - 2953 * (m - 1)) / 100 := by
  have h := Rat.floor_intCast_div_natCast (100 * n - 2953 * (m - 1)) 100
  have e : (n : ℚ) - ((m : ℚ) - 1) * 29.53
      = ((100 * n - 2953 * (m - 1) : ℤ) : ℚ) / ((100 : ℕ) : ℚ) := by
    push_cast
    norm_num
    ring
  rw [e, h]
  rfl

/-- Integer form of `gregorianToIslamic`. -/
theorem gregorianToIslamic_eq (islamicEpoch date : ℤ) :
    gregorianToIslamic islamicEpoch date =
      { year := islamicYearOfDiff (islamicDaysDiff islamicEpoch date)
        month := min (islamicMonthOfDiff (islamicDaysDiff islamicEpoch date)) 12
        day := min (islamicDayOfDiff (islamicDaysDiff islamicEpoch date)) 30 } := by
  simp only [gregorianToIslamic, floor_days_diff, floor_islamic_year, floor_islamic_year_start,
    floor_islamic_month, floor_islamic_day]
  rfl

/-- The instant a whole number of days after the epoch has that number as `daysDiff`. -/
theorem islamicDaysDiff_add_days (islamicEpoch days : ℤ) :
    islamicDaysDiff islamicEpoch (islamicEpoch + days * 86400000) = days := by
  unfold islamicDaysDiff
  omega

/-- The offset `daysDiff` does not decrease with the time value, and it increases over 24
hours. -/
theorem islamicDaysDiff_mono (islamicEpoch a b : ℤ) :
    (a ≤ b → islamicDaysDiff islamicEpoch a ≤ islamicDaysDiff islamicEpoch b) ∧
    (a + 86400000 ≤ b → islamicDaysDiff islamicEpoch a < islamicDaysDiff islamicEpoch b) := by
  unfold islamicDaysDiff
  constructor <;> intro h <;> omega

/-- Without the clamp of the later month, the order of the offsets `daysDiff` is the order
of the Islamic dates. -/
theorem islamic_earlier_of_diff_lt (x y : ℤ) (hd : x < y) (hy : islamicMonthOfDiff y ≤ 12) :
    IslamicDate.earlier
      { year := islamicYearOfDiff x, month := min (islamicMonthOfDiff x) 12,
        day := min (islamicDayOfDiff x) 30 }
      { year := islamicYearOfDiff y, month := min (islamicMonthOfDiff y) 12,
        day := min (islamicDayOfDiff y) 30 } := by
  unfold IslamicDate.earlier
  dsimp only
  unfold islamicDayOfDiff islamicMonthOfDiff islamicDayOfYear islamicYearOfDiff at *
  omega

theorem IslamicDate.earlier_asymm (p q : IslamicDate) (h : p.earlier q) : ¬ q.earlier p := by
  unfold IslamicDate.earlier at *
  omega

/-- Outside the calendars `ethiopian` and `islamic`, `formatDate` reads nothing from the
host. -/
theorem formatDate_of_other (host host2 : Host) (calendar format : String) (date : ℤ)
    (h2 : calendar ≠ "ethiopian") (h3 : calendar ≠ "islamic") :
    formatDate host calendar format date = formatDate host2 calendar format date := by
  unfold formatDate
  rw [if_neg h2, if_neg h3, if_neg h2, if_neg h3]

theorem formatDate_gregorian (host : Host) (format : String) (date : ℤ) :
    formatDate host "gregorian" format date = formatDate utcHost "gregorian" format date :=
  formatDate_of_other host utcHost "gregorian" format date (by decide) (by decide)

theorem numberToString_intCast (n : ℤ) : numberToString (n : ℚ) = toString n := by
  unfold numberToString
  rw [if_pos (Rat.den_intCast n), Rat.num_intCast]

theorem toString_int_of_nonneg (n : ℤ) (h : 0 ≤ n) : toString n = toString n.toNat := by
  obtain ⟨k, rfl⟩ := Int.eq_ofNat_of_zero_le h
  rfl

theorem toDigits_four (n : ℕ) (h1 : 1000 ≤ n) (h2 : n ≤ 9999) :
    Nat.toDigits 10 n = [Nat.digitChar (n / 1000), Nat.digitChar (n / 100 % 10),
      Nat.digitChar (n / 10 % 10), Nat.digitChar (n % 10)] := by
  obtain ⟨k, rfl⟩ : ∃ k, n = k + 4 := ⟨n - 4, by omega⟩
  have e1 : (k + 4) / 10 ≠ 0 := by omega
  have e2 : (k + 4) / 10 / 10 ≠ 0 := by omega
  have e3 : (k + 4) / 10 / 10 / 10 ≠ 0 := by omega
  have e4 : (k + 4) / 10 / 10 / 10 / 10 = 0 := by omega
  have d1 : (k + 4) / 10 % 10 = (k + 4) / 10 % 10 := rfl
  have d2 : (k + 4) / 10 / 10 % 10 = (k + 4) / 100 % 10 := by omega
  have d3 : (k + 4) / 10 / 10 / 10 % 10 = (k + 4) / 1000 := by omega
  simp only [Nat.toDigits, Nat.toDigitsCore, e1, e2, e3, e4, if_false, if_true, d2, d3]

theorem toString_four_digits (n : ℤ) (h1 : 1000 ≤ n) (h2 : n ≤ 9999) :
    toString n = String.mk (digits4 n) := by
  rw [toString_int_of_nonneg n (by omega)]
  show (Nat.toDigits 10 n.toNat).asString = _
  rw [toDigits_four n.toNat (by omega) (by omega)]
  rfl

theorem padStart_two_digits (n : ℤ) (h1 : 0 ≤ n) (h2 : n ≤ 31) :
    padStart (toString n) 2 "0" = String.mk (digits2 n) := by
  interval_cases n <;> decide

theorem replaceChars_skip (h : Char) (pat rep p s : List Char) (hp : ∀ c ∈ p, c ≠ h) :
    replaceChars (h :: pat) rep (p ++ s) = p ++ replaceChars (h :: pat) rep s := by
  induction p with
  | nil => rfl
  | cons c p ih =>
    have hc : c ≠ h := hp c (List.mem_cons_self c p)
    have hne : ¬ (c :: (p ++ s)).take (h :: pat).length = h :: pat := by
      intro he
      rw [List.length_cons, List.take_succ_cons] at he
      exact hc (List.cons.inj he).1
    rw [List.cons_append, replaceChars, if_neg hne, ih (fun x hx => hp x (List.mem_cons_of_mem c hx)),
      List.cons_append]

theorem digitChar_ne_letter (k : ℕ) (hk : k < 10) :
    Nat.digitChar k ≠ 'm' ∧ Nat.digitChar k ≠ 'd' := by
  interval_cases k <;> decide

theorem digits4_no_letter (n : ℤ) (h2 : n ≤ 9999) :
    ∀ c ∈ digits4 n, c ≠ 'm' ∧ c ≠ 'd' := by
  intro c hc
  simp only [digits4, List.mem_cons, List.mem_singleton, List.not_mem_nil, or_false] at hc
  rcases hc with rfl | rfl | rfl | rfl <;> apply digitChar_ne_letter <;> omega

theorem digits2_no_letter (n : ℤ) (h2 : n ≤ 99) :
    ∀ c ∈ digits2 n, c ≠ 'm' ∧ c ≠ 'd' := by
  intro c hc
  simp only [digits2, List.mem_cons, List.mem_singleton, List.not_mem_nil, or_false] at hc
  rcases hc with rfl | rfl <;> apply digitChar_ne_letter <;> omega

/-- The three replacements on the template `yyyy-mm-dd`, for year, month and day strings
that hold neither `m` nor `d`. -/
theorem replaceChars_iso (Y M D : List Char) (hY : ∀ c ∈ Y, c ≠ 'm' ∧ c ≠ 'd')
    (hM : ∀ c ∈ M, c ≠ 'm' ∧ c ≠ 'd') :
    replaceChars "dd".data D (replaceChars "mm".data M
        (replaceChars "yyyy".data Y "yyyy-mm-dd".data))
      = Y ++ '-' :: (M ++ '-' :: D) := by
  have h1 : replaceChars "yyyy".data Y "yyyy-mm-dd".data
      = (Y ++ ['-']) ++ ['m', 'm', '-', 'd', 'd'] := by
    simp [replaceChars]
  have h2 : replaceChars "mm".data M ((Y ++ ['-']) ++ ['m', 'm', '-', 'd', 'd'])
      = (Y ++ '-' :: (M ++ ['-'])) ++ ['d', 'd'] := by
    have hs := replaceChars_skip 'm' ['m'] M (Y ++ ['-']) ['m', 'm', '-', 'd', 'd'] (by
      intro c hc
      rw [List.mem_append, List.mem_singleton] at hc
      rcases hc with hc | rfl
      · exact (hY c hc).1
      · decide)
    show replaceChars ['m', 'm'] M _ = _
    rw [hs]
    simp [replaceChars]
  have h3 : replaceChars "dd".data D ((Y ++ '-' :: (M ++ ['-'])) ++ ['d', 'd'])
      = Y ++ '-' :: (M ++ '-' :: D) := by
    have hs := replaceChars_skip 'd' ['d'] D (Y ++ '-' :: (M ++ ['-'])) ['d', 'd'] (by
      intro c hc
      simp only [List.mem_append, List.mem_cons, List.mem_singleton, List.not_mem_nil,
        or_false] at hc
      rcases hc with hc | rfl | hc | rfl
      · exact (hY c hc).2
      · decide
      · exact (hM c hc).2
      · decide)
    show replaceChars ['d', 'd'] D _ = _
    rw [hs]
    simp [replaceChars]
  rw [h1, h2, h3]

theorem getProp_titles_unknown {α : Type} (a b c : α) (k : String) (h1 : k ≠ "gregorian")
    (h2 : k ≠ "ethiopian") (h3 : k ≠ "islamic") (h4 : k ∉ objectPrototypeKeys) :
    getProp [("gregorian", a), ("ethiopian", b), ("islamic", c)] k = none := by
  have e1 : (k == "gregorian") = false := by simpa using h1
  have e2 : (k == "ethiopian") = false := by simpa using h2
  have e3 : (k == "islamic") = false := by simpa using h3
  simp only [getProp, List.lookup, e1, e2, e3]
  rw [if_neg h4]

/-! ## The two titles and month navigation -/

/-- For a valid date of a year 1901..2099 the index `month - 1` of the Ethiopian month is
never the index `getMonth()` of the Gregorian month. -/
theorem ethMonthIndex_ne_getMonth (g : JSDate) (hv : validGregorian g)
    (h1 : 1901 ≤ g.getFullYear) (h2 : g.getFullYear ≤ 2099) :
    (ethDayOfYear (epochCount g) - 1) / 30 ≠ g.getMonth := by
  have hY := ethYear_1901_2099 g hv h1 h2
  obtain ⟨y, m, d⟩ := g
  dsimp only at h1 h2 hY ⊢
  simp only [validGregorian] at hv
  obtain ⟨h0, h11, hd1, hlen⟩ := hv
  rw [daysInMonth_eq] at hlen
  have hl := leapFlag_range y
  have hleap := isLeapYear_iff y
  have hny := epochCount_newYear y (by omega) h2
  have hny1 := epochCount_newYear (y - 1) (by omega) (by omega)
  have hs := year_step y
  unfold ethDayOfYear
  rw [hY]
  unfold epochCount at hny hny1 ⊢
  rw [jdInt_mk _ _ _ (by omega)] at hny hny1 ⊢
  norm_num at hny hny1
  by_cases hon : onOrAfterNewYear ⟨y, m, d⟩
  · rw [if_pos hon]
    rw [onOrAfterNewYear_mk] at hon
    have hm8 : 8 ≤ m := by omega
    interval_cases m <;> norm_num at hlen hon ⊢ <;> omega
  · rw [if_neg hon]
    rw [onOrAfterNewYear_mk] at hon
    have hm8 : m ≤ 8 := by omega
    unfold isLeapYear at hleap
    interval_cases m <;> norm_num at hlen hon ⊢ <;> omega

theorem ethMonthIndex_range (c : ℤ) :
    0 ≤ (ethDayOfYear c - 1) / 30 ∧ (ethDayOfYear c - 1) / 30 ≤ 12 := by
  unfold ethDayOfYear ethYearOfCount
  omega

theorem getIndex_value (l : List String) (i : ℤ) (h : 0 ≤ i) :
    getIndex (JSValue.value l) i = l.get? i.toNat := by
  show (if 0 ≤ i then l.get? i.toNat else none) = _
  rw [if_pos h]

theorem append_space_left_eq (n1 n2 A B : List Char) (h1 : ' ' ∉ n1) (h2 : ' ' ∉ n2)
    (h : n1 ++ ' ' :: A = n2 ++ ' ' :: B) : n1 = n2 := by
  induction n1 generalizing n2 with
  | nil =>
    cases n2 with
    | nil => rfl
    | cons c n2 =>
      rw [List.nil_append, List.cons_append] at h
      have hc : ' ' = c := (List.cons.inj h).1
      exact absurd (hc ▸ List.mem_cons_self c n2) h2
  | cons c n1 ih =>
    cases n2 with
    | nil =>
      rw [List.nil_append, List.cons_append] at h
      have hc : c = ' ' := (List.cons.inj h).1
      exact absurd (hc ▸ List.mem_cons_self c n1) h1
    | cons e n2 =>
      rw [List.cons_append, List.cons_append] at h
      obtain ⟨hce, ht⟩ := List.cons.inj h
      rw [hce, ih n2 (fun hm => h1 (List.mem_cons_of_mem c hm))
        (fun hm => h2 (List.mem_cons_of_mem e hm)) ht]

/-- Two titles `name year` with different names that hold no space are different. -/
theorem title_ne_of_name_ne (s1 s2 A B : String) (h1 : ' ' ∉ s1.data) (h2 : ' ' ∉ s2.data)
    (hne : s1 ≠ s2) : s1 ++ " " ++ A ≠ s2 ++ " " ++ B := by
  intro h
  have hd := congrArg String.data h
  simp only [String.data_append] at hd
  rw [List.append_assoc, List.append_assoc, List.singleton_append, List.singleton_append] at hd
  exact hne (String.ext (append_space_left_eq _ _ _ _ h1 h2 hd))

theorem ethiopianMonths_apart :
    ∀ i < 12, ∀ j < 13, i ≠ j →
      template (NextCalendar.ethiopianMonths.get? i)
        ≠ template (ReactCalendar.ethiopianMonths.get? j) := by
  decide

theorem ethiopianMonths_no_space :
    (∀ i < 12, ' ' ∉ (template (NextCalendar.ethiopianMonths.get? i)).data) ∧
    (∀ j < 13, ' ' ∉ (template (ReactCalendar.ethiopianMonths.get? j)).data) := by
  decide

theorem makeDay_month_twelve (y d : ℤ) : makeDay y 12 d = makeDay (y + 1) 0 d := by
  unfold makeDay
  norm_num

theorem makeDay_month_minus_one (y d : ℤ) : makeDay y (-1) d = makeDay (y - 1) 11 d := by
  unfold makeDay
  norm_num
  rfl

theorem validGregorian_of_le_28 (y m d : ℤ) (h0 : 0 ≤ m) (h11 : m ≤ 11) (h1 : 1 ≤ d)
    (h28 : d ≤ 28) : validGregorian ⟨y, m, d⟩ := by
  refine ⟨h0, h11, h1, ?_⟩
  have := daysInMonth_range y (m + 1)
  dsimp only
  omega

theorem fieldsOfDay_nextMonth (viewDate : ℤ) (h28 : dateFromDay viewDate ≤ 28) :
    fieldsOfDay (nextMonth viewDate)
      = ⟨(followingMonth (viewMonth viewDate)).1, (followingMonth (viewMonth viewDate)).2,
          dateFromDay viewDate⟩ := by
  have hm := monthFromDay_range viewDate
  have hd := dateFromDay_range viewDate
  unfold nextMonth setMonth followingMonth viewMonth
  dsimp only
  by_cases h : monthFromDay viewDate = 11
  · rw [if_pos h, h]
    norm_num
    rw [makeDay_month_twelve]
    exact fieldsOfDay_makeDay _ _ _ (validGregorian_of_le_28 _ _ _ (by omega) (by omega) hd.1 h28)
  · rw [if_neg h]
    exact fieldsOfDay_makeDay _ _ _ (validGregorian_of_le_28 _ _ _ (by omega) (by omega) hd.1 h28)

theorem fieldsOfDay_previousMonth (viewDate : ℤ) (h28 : dateFromDay viewDate ≤ 28) :
    fieldsOfDay (previousMonth viewDate)
      = ⟨(precedingMonth (viewMonth viewDate)).1, (precedingMonth (viewMonth viewDate)).2,
          dateFromDay viewDate⟩ := by
  have hm := monthFromDay_range viewDate
  have hd := dateFromDay_range viewDate
  unfold previousMonth setMonth precedingMonth viewMonth
  dsimp only
  by_cases h : monthFromDay viewDate = 0
  · rw [if_pos h, h]
    norm_num
    rw [makeDay_month_minus_one]
    exact fieldsOfDay_makeDay _ _ _ (validGregorian_of_le_28 _ _ _ (by omega) (by omega) hd.1 h28)
  · rw [if_neg h]
    exact fieldsOfDay_makeDay _ _ _ (validGregorian_of_le_28 _ _ _ (by omega) (by omega) hd.1 h28)

/-- For a view date on day 28 or earlier of its month, `nextMonth` moves to the following
calendar month, `previousMonth` to the preceding one, and `nextMonth` followed by
`previousMonth` returns to the view date. -/
theorem month_navigation_of_early_day (viewDate : ℤ) (h28 : dateFromDay viewDate ≤ 28) :
    viewMonth (nextMonth viewDate) = followingMonth (viewMonth viewDate) ∧
    viewMonth (previousMonth viewDate) = precedingMonth (viewMonth viewDate) ∧
    previousMonth (nextMonth viewDate) = viewDate := by
  have hn := fieldsOfDay_nextMonth viewDate h28
  have hp := fieldsOfDay_previousMonth viewDate h28
  have hn1 : yearFromDay (nextMonth viewDate) = (followingMonth (viewMonth viewDate)).1 :=
    congrArg JSDate.getFullYear hn
  have hn2 : monthFromDay (nextMonth viewDate) = (followingMonth (viewMonth viewDate)).2 :=
    congrArg JSDate.getMonth hn
  have hn3 : dateFromDay (nextMonth viewDate) = dateFromDay viewDate :=
    congrArg JSDate.getDate hn
  refine ⟨?_, ?_, ?_⟩
  · show (yearFromDay (nextMonth viewDate), monthFromDay (nextMonth viewDate)) = _
    rw [hn1, hn2]
  · show (yearFromDay (previousMonth viewDate), monthFromDay (previousMonth viewDate)) = _
    have hp1 : yearFromDay (previousMonth viewDate) = (precedingMonth (viewMonth viewDate)).1 :=
      congrArg JSDate.getFullYear hp
    have hp2 : monthFromDay (previousMonth viewDate) = (precedingMonth (viewMonth viewDate)).2 :=
      congrArg JSDate.getMonth hp
    rw [hp1, hp2]
  · apply fieldsOfDay_injective
    rw [fieldsOfDay_previousMonth _ (by rw [hn3]; exact h28)]
    have hm := monthFromDay_range viewDate
    show _ = (⟨yearFromDay viewDate, monthFromDay viewDate, dateFromDay viewDate⟩ : JSDate)
    unfold precedingMonth viewMonth
    rw [hn1, hn2, hn3]
    unfold followingMonth viewMonth
    dsimp only
    by_cases h : monthFromDay viewDate = 11
    · rw [if_pos h]
      norm_num
      exact h.symm
    · rw [if_neg h]
      dsimp only
      rw [if_neg (by omega)]
      congr 1
      ring

theorem month_navigation_of_early_day_witness :
    viewMonth (nextMonth (makeDay 2024 11 15)) = followingMonth (viewMonth (makeDay 2024 11 15)) :=
  (month_navigation_of_early_day (makeDay 2024 11 15) (by decide)).1

/-- The title of the Next.js ModernCalendar against the conversion, for every valid
Gregorian date of a year 1901..2099: the Gregorian month index `getMonth()` with which
`formatEthiopianDate` reads the table of Ethiopian month names is not the index
`month - 1` of the converted date, the year `G - 7` is the converted year only on or after
Ethiopian new year, and so the title differs from the one the React ModernCalendar builds
from the converted date. -/
theorem next_title_differs_1901_2099 (g : JSDate) (hv : validGregorian g)
    (h1 : 1901 ≤ g.getFullYear) (h2 : g.getFullYear ≤ 2099) :
    g.getMonth ≠ (gregorianToEthiopian g).month - 1 ∧
    (NextCalendar.ethiopianYear g = (gregorianToEthiopian g).year ↔ onOrAfterNewYear g) ∧
    NextCalendar.formatEthiopianDate g ≠ ReactCalendar.formatEthiopianDate g := by
  have hk := ethMonthIndex_ne_getMonth g hv h1 h2
  have hr := ethMonthIndex_range (epochCount g)
  have hY := ethYear_1901_2099 g hv h1 h2
  have hm0 : 0 ≤ g.getMonth := hv.1
  have hm11 : g.getMonth ≤ 11 := hv.2.1
  have hmonth : (gregorianToEthiopian g).month - 1 = (ethDayOfYear (epochCount g) - 1) / 30 := by
    rw [gregorianToEthiopian_eq]
    dsimp only
    ring
  refine ⟨?_, ?_, ?_⟩
  · rw [hmonth]
    exact fun h => hk h.symm
  · rw [gregorianToEthiopian_eq]
    dsimp only
    rw [hY]
    unfold NextCalendar.ethiopianYear
    dsimp only
    split_ifs <;> constructor <;> intro h <;> first | omega | assumption | exact absurd h ‹_›
  · have hn : NextCalendar.formatEthiopianDate g
        = template (NextCalendar.ethiopianMonths.get? g.getMonth.toNat) ++ " "
          ++ numberToString (NextCalendar.ethiopianYear g) := by
      show template (getIndex (JSValue.value NextCalendar.ethiopianMonths) g.getMonth) ++ " "
          ++ numberToString (NextCalendar.ethiopianYear g) = _
      rw [getIndex_value _ _ hm0]
    have hre : ReactCalendar.formatEthiopianDate g
        = template (ReactCalendar.ethiopianMonths.get?
            ((ethDayOfYear (epochCount g) - 1) / 30).toNat) ++ " "
          ++ numberToString ((gregorianToEthiopian g).year) := by
      unfold ReactCalendar.formatEthiopianDate
      dsimp only
      rw [hmonth, getIndex_value _ _ hr.1]
    rw [hn, hre]
    apply title_ne_of_name_ne
    · exact ethiopianMonths_no_space.1 _ (by omega)
    · exact ethiopianMonths_no_space.2 _ (by omega)
    · exact ethiopianMonths_apart _ (by omega) _ (by omega) (by omega)

theorem next_title_differs_1901_2099_witness :
    NextCalendar.formatEthiopianDate ⟨2024, 8, 11⟩
      ≠ ReactCalendar.formatEthiopianDate ⟨2024, 8, 11⟩ :=
  (next_title_differs_1901_2099 ⟨2024, 8, 11⟩ (by decide) (by decide) (by decide)).2.2

/-! ## Claims -/

/-- C1: for every Gregorian date `g`, the Ethiopian date `gregorianToEthiopian g`
goes back through `ethiopianToJD` to the Julian Day `gregorianToJD g`; no bound on
the date is needed, so dates before the Ethiopian epoch are covered. -/
theorem C1_ethiopian_jd_roundtrip (g : JSDate) :
    ethiopianToJD (gregorianToEthiopian g).year (gregorianToEthiopian g).month
      (gregorianToEthiopian g).day = gregorianToJD g := by
  simp only [gregorianToEthiopian, floor_gregorianToJD]
  generalize (⌊(gregorianToJD g - 1724220.5 - (⌊(gregorianToJD g - 1724220.5 + 366) / 1461⌋ : ℚ)) / 365⌋ + 1) = y
  by_cases hy : y ≤ 0
  · have h1 : y - 1 < 0 := by omega
    simp only [ethiopianToJD, hy, h1, if_true]
    push_cast
    ring
  · have h1 : ¬ y < 0 := by omega
    simp only [ethiopianToJD, hy, h1, if_false]
    ring


/-- C2: a valid Ethiopian date `e` with year at least 1 is recovered exactly: every
Gregorian date whose Julian Day is `ethiopianToJD e` is converted by
`gregorianToEthiopian` to `e` (same year, month and day). -/
theorem C2_ethiopian_recovered (year month day : ℤ) (hy : 1 ≤ year)
    (hv : validEthiopian year month day) (g : JSDate)
    (hjd : gregorianToJD g = ethiopianToJD year month day) :
    gregorianToEthiopian g = { year := year, month := month, day := (day : ℚ) } := by
  have hc : epochCount g = (day - 1) + (month - 1) * 30 + (year - 1) * 365 + year / 4 := by
    have h1 := gregorianToJD_sub_epoch g
    rw [hjd, ethiopianToJD_of_pos year month day hy] at h1
    have h2 : (((day - 1) + (month - 1) * 30 + (year - 1) * 365 + year / 4 : ℤ) : ℚ)
        = ((epochCount g : ℤ) : ℚ) := by
      rw [← h1]
      ring
    exact_mod_cast h2.symm
  unfold validEthiopian at hv
  have hY : ethYearOfCount (epochCount g) = year := by
    unfold ethYearOfCount
    omega
  have hD : ethDayOfYear (epochCount g) = (month - 1) * 30 + day := by
    unfold ethDayOfYear
    rw [hY, hc]
    ring
  have hM : ((month - 1) * 30 + day - 1) / 30 = month - 1 := by omega
  have hpos : ¬ year ≤ 0 := by omega
  rw [gregorianToEthiopian_eq, hY, hD, hM]
  simp only [hpos, if_false]
  congr 1
  · ring
  · push_cast
    ring

theorem C2_ethiopian_recovered_witness :
    gregorianToEthiopian ⟨2024, 8, 11⟩ = { year := 2017, month := 1, day := ((1 : ℤ) : ℚ) } :=
  C2_ethiopian_recovered 2017 1 1 (by decide) (by decide) ⟨2024, 8, 11⟩
    (by norm_num [gregorianToJD, ethiopianToJD])

/-- C3, counterexample: 1 January of year -1 is earlier than 1 January of year 0, both
are valid dates, and `gregorianToJD` gives them the same Julian Day, because
`if (year < 0) year++` sends year -1 to the internal year 0 that year 0 already uses. -/
theorem C3_counterexample_year_zero :
    validGregorian ⟨-1, 0, 1⟩ ∧ validGregorian ⟨0, 0, 1⟩ ∧
    JSDate.earlier ⟨-1, 0, 1⟩ ⟨0, 0, 1⟩ ∧
    ¬ (gregorianToJD ⟨-1, 0, 1⟩ < gregorianToJD ⟨0, 0, 1⟩) := by
  refine ⟨by decide, by decide, by decide, ?_⟩
  norm_num [gregorianToJD]

/-- C3, amended: on valid proleptic-Gregorian dates of years 0 and later, `gregorianToJD`
is strictly increasing in (year, month, day) order, hence injective, and an inverse
`fromJulianDay` with `fromJulianDay (gregorianToJD d) = d` exists. -/
theorem C3_jd_strictly_increasing_from_year_zero :
    (∀ a b : JSDate, validGregorian a → validGregorian b →
      0 ≤ a.getFullYear → 0 ≤ b.getFullYear → a.earlier b →
      gregorianToJD a < gregorianToJD b) ∧
    (∀ a b : JSDate, validGregorian a → validGregorian b →
      0 ≤ a.getFullYear → 0 ≤ b.getFullYear →
      gregorianToJD a = gregorianToJD b → a = b) ∧
    (∃ fromJulianDay : ℚ → JSDate, ∀ d : JSDate, validGregorian d → 0 ≤ d.getFullYear →
      fromJulianDay (gregorianToJD d) = d) := by
  refine ⟨gregorianToJD_lt_of_earlier, gregorianToJD_injective, ?_⟩
  classical
  refine ⟨fun q => if h : ∃ d : JSDate, validGregorian d ∧ 0 ≤ d.getFullYear ∧
      gregorianToJD d = q then h.choose else ⟨0, 0, 0⟩, ?_⟩
  intro d hv hy
  have hex : ∃ e : JSDate, validGregorian e ∧ 0 ≤ e.getFullYear ∧
      gregorianToJD e = gregorianToJD d := ⟨d, hv, hy, rfl⟩
  show (if h : ∃ e : JSDate, validGregorian e ∧ 0 ≤ e.getFullYear ∧
      gregorianToJD e = gregorianToJD d then h.choose else ⟨0, 0, 0⟩) = d
  rw [dif_pos hex]
  obtain ⟨h1, h2, h3⟩ := hex.choose_spec
  exact gregorianToJD_injective _ _ h1 hv h2 hy h3

theorem C3_jd_strictly_increasing_from_year_zero_witness :
    gregorianToJD ⟨2023, 11, 31⟩ < gregorianToJD ⟨2024, 0, 1⟩ :=
  C3_jd_strictly_increasing_from_year_zero.1 ⟨2023, 11, 31⟩ ⟨2024, 0, 1⟩
    (by decide) (by decide) (by decide) (by decide) (by decide)

/-- C4: for every valid proleptic-Gregorian date of year 1 or later, `gregorianToJD` of
the next calendar day is `gregorianToJD` of the date plus exactly 1. -/
theorem C4_next_day_adds_one (d : JSDate) (hv : validGregorian d) (hy : 1 ≤ d.getFullYear) :
    gregorianToJD (nextDay d) = gregorianToJD d + 1 := by
  rw [gregorianToJD_eq, gregorianToJD_eq, jdInt_nextDay d hv hy]
  push_cast
  ring

theorem C4_next_day_adds_one_witness :
    nextDay ⟨2024, 1, 29⟩ = ⟨2024, 2, 1⟩ ∧
    gregorianToJD (nextDay ⟨2024, 1, 29⟩) = gregorianToJD ⟨2024, 1, 29⟩ + 1 :=
  ⟨by decide, C4_next_day_adds_one ⟨2024, 1, 29⟩ (by decide) (by decide)⟩

/-- C5: for every Gregorian date, `gregorianToEthiopian` returns a month in 1..13 and a
whole day in 1..30; in month 13 the day is at most 6, and at most 5 unless the year as
counted internally (no gap at zero) is congruent to 3 modulo 4. -/
theorem C5_ethiopian_fields_in_range (g : JSDate) :
    1 ≤ (gregorianToEthiopian g).month ∧ (gregorianToEthiopian g).month ≤ 13 ∧
    ∃ d : ℤ, (gregorianToEthiopian g).day = (d : ℚ) ∧ 1 ≤ d ∧ d ≤ 30 ∧
      ((gregorianToEthiopian g).month = 13 → d ≤ 6) ∧
      ((gregorianToEthiopian g).month = 13 →
        (gregorianToEthiopian g).internalYear % 4 ≠ 3 → d ≤ 5) := by
  rw [gregorianToEthiopian_eq]
  generalize epochCount g = c
  have hi : EthDate.internalYear
      { year := if ethYearOfCount c ≤ 0 then ethYearOfCount c - 1 else ethYearOfCount c
        month := (ethDayOfYear c - 1) / 30 + 1
        day := ((ethDayOfYear c - (ethDayOfYear c - 1) / 30 * 30 : ℤ) : ℚ) }
      = ethYearOfCount c := by
    unfold EthDate.internalYear
    dsimp only
    split_ifs <;> omega
  rw [hi]
  dsimp only
  refine ⟨?_, ?_, ethDayOfYear c - (ethDayOfYear c - 1) / 30 * 30, rfl, ?_, ?_, ?_, ?_⟩ <;>
    unfold ethDayOfYear ethYearOfCount <;> omega

/-- C6: Gregorian 2024-09-11 converts to Ethiopian year 2017, month 1, day 1, and the day
before, 2024-09-10, to year 2016, month 13, day 5. -/
theorem C6_new_year_2017 :
    gregorianToEthiopian ⟨2024, 8, 11⟩ = { year := 2017, month := 1, day := 1 } ∧
    gregorianToEthiopian ⟨2024, 8, 10⟩ = { year := 2016, month := 13, day := 5 } := by
  constructor <;> norm_num [gregorianToEthiopian, gregorianToJD, ethiopianToJD]

/-- C7: `gregorianToJD` of 2000-01-01 is exactly 2451544.5. -/
theorem C7_jd_2000_01_01 : gregorianToJD ⟨2000, 0, 1⟩ = 2451544.5 := by
  norm_num [gregorianToJD]

/-- C8, counterexample: 1900-02-29 is not a valid date (1900 is not a leap year), yet
`gregorianToJD` does not fail on it: it returns the number 2415079.5. -/
theorem C8_counterexample_no_failure :
    ¬ validGregorian ⟨1900, 1, 29⟩ ∧ gregorianToJD ⟨1900, 1, 29⟩ = 2415079.5 := by
  refine ⟨by decide, ?_⟩
  norm_num [gregorianToJD]

/-- C8, amended: `gregorianToJD` has no failure path. For every year, month and day,
valid or not, it returns a number, a whole number of days plus one half; a day beyond
the end of the month is carried over, so 1900-02-29 gets the Julian Day of 1900-03-01,
while 2000-02-29 and 2024-02-29 get the day between February 28 and March 1. -/
theorem C8_jd_total_with_carry :
    (∀ d : JSDate, ∃ n : ℤ, gregorianToJD d = (n : ℚ) + 1 / 2) ∧
    gregorianToJD ⟨1900, 1, 29⟩ = gregorianToJD ⟨1900, 2, 1⟩ ∧
    (gregorianToJD ⟨2000, 1, 29⟩ = gregorianToJD ⟨2000, 1, 28⟩ + 1 ∧
      gregorianToJD ⟨2000, 2, 1⟩ = gregorianToJD ⟨2000, 1, 29⟩ + 1) ∧
    (gregorianToJD ⟨2024, 1, 29⟩ = gregorianToJD ⟨2024, 1, 28⟩ + 1 ∧
      gregorianToJD ⟨2024, 2, 1⟩ = gregorianToJD ⟨2024, 1, 29⟩ + 1) := by
  refine ⟨?_, ?_, ⟨?_, ?_⟩, ⟨?_, ?_⟩⟩
  · intro d
    refine ⟨jdInt d - 1525, ?_⟩
    rw [gregorianToJD_eq]
    push_cast
    norm_num
    ring
  all_goals norm_num [gregorianToJD]

/-- C9: for every view date and every `firstDayOfWeek` in 0..6, `renderDays` produces
exactly 42 cells; their dates are 42 consecutive calendar days (each cell is the next
calendar day after the one before it); the weekday (Sunday = 0) of cell `i` is
`(firstDayOfWeek + i) mod 7`, and the first cell falls on `firstDayOfWeek`. -/
theorem C9_grid_42_consecutive_days (viewDate firstDayOfWeek : ℤ) (selectedDate : Option ℤ)
    (currentDate : ℤ) (h0 : 0 ≤ firstDayOfWeek) (h6 : firstDayOfWeek ≤ 6) :
    (renderDays viewDate firstDayOfWeek selectedDate currentDate).length = 42 ∧
    List.Chain' (fun a b : DayCell => b.currentDate = a.currentDate + 1 ∧
        fieldsOfDay b.currentDate = nextDay (fieldsOfDay a.currentDate))
      (renderDays viewDate firstDayOfWeek selectedDate currentDate) ∧
    (renderDays viewDate firstDayOfWeek selectedDate currentDate).map
        (fun c => weekDay c.currentDate)
      = (List.range 42).map (fun (i : ℕ) => (firstDayOfWeek + i) % 7) ∧
    (renderDays viewDate firstDayOfWeek selectedDate currentDate).head?.map
        (fun c => weekDay c.currentDate) = some firstDayOfWeek := by
  refine ⟨renderDays_length _ _ _ _, ?_, ?_, ?_⟩
  · rw [renderDays_eq_map, List.chain'_map]
    have hr : List.Chain' (fun a b : ℕ => b = a + 1) (List.range 42) :=
      (List.chain'_range_succ _ 41).mpr (fun m _ => rfl)
    refine hr.imp ?_
    intro a b hab
    subst hab
    dsimp only
    have e : gridStart viewDate firstDayOfWeek + ((a + 1 : ℕ) : ℤ)
        = gridStart viewDate firstDayOfWeek + (a : ℤ) + 1 := by
      push_cast
      ring
    rw [e]
    exact ⟨rfl, fieldsOfDay_succ _⟩
  · rw [renderDays_eq_map, List.map_map]
    apply List.map_congr_left
    intro i _
    exact weekDay_gridStart_add viewDate firstDayOfWeek h0 h6 i
  · rw [renderDays_eq_map]
    have h := weekDay_gridStart_add viewDate firstDayOfWeek h0 h6 0
    have e : (firstDayOfWeek + ((0 : ℕ) : ℤ)) % 7 = firstDayOfWeek := by
      push_cast
      omega
    rw [e] at h
    simp only [List.range_succ_eq_map, List.range_zero, List.map_cons, List.head?_cons,
      Option.map_some']
    rw [h]

theorem C9_grid_42_consecutive_days_witness :
    (renderDays 19977 1 none 19977).length = 42 ∧
    (renderDays 19977 1 none 19977).head?.map (fun c => fieldsOfDay c.currentDate)
      = some ⟨2024, 7, 26⟩ :=
  ⟨(C9_grid_42_consecutive_days 19977 1 none 19977 (by decide) (by decide)).1, by decide⟩

/-- C10, failing input: the view date 15 January of year 50 (day number -701251). The grid
is built from `new Date(50, 0, 1)`, which is 1 January 1950: the day 0050-01-15 appears in
no cell, and the cells flagged `isCurrentMonth` are the 31 days of January 1950. -/
theorem C10_two_digit_year_shows_1950 :
    fieldsOfDay (-701251) = ⟨50, 0, 15⟩ ∧
    ((renderDays (-701251) 0 none (-701251)).map
      (fun c => fieldsOfDay c.currentDate)).count ⟨50, 0, 15⟩ = 0 ∧
    ((renderDays (-701251) 0 none (-701251)).filter (fun c => c.isCurrentMonth)).map
      (fun c => fieldsOfDay c.currentDate)
      = (List.range 31).map (fun (i : ℕ) => ⟨1950, 0, (i : ℤ) + 1⟩) := by
  refine ⟨by decide, by decide, by decide⟩

/-- C11, failing input: view date and today both 2024-09-11 (day number 19977). Because
the loop constant `currentDate` hides the state `currentDate`, `isToday` compares each
cell with itself: in every grid all 42 cells are flagged, here too, where only the cell
of 2024-09-11 should be. -/
theorem C11_every_cell_flagged_today :
    (∀ (viewDate firstDayOfWeek : ℤ) (selectedDate : Option ℤ) (currentDate : ℤ),
      ∀ c ∈ renderDays viewDate firstDayOfWeek selectedDate currentDate, c.isToday = true) ∧
    ((renderDays 19977 0 none 19977).filter (fun c => c.isToday)).length = 42 ∧
    ((renderDays 19977 0 none 19977).filter
      (fun c => decide (fieldsOfDay c.currentDate = fieldsOfDay 19977))).length = 1 := by
  refine ⟨?_, by decide, by decide⟩
  intro viewDate firstDayOfWeek selectedDate currentDate c hc
  rw [renderDays_eq_map, List.mem_map] at hc
  obtain ⟨i, _, rfl⟩ := hc
  exact isSameDay_self _

/-- C12: for every view date and every `firstDayOfWeek` in 0..6, cell `i` is flagged
`isWeekend` exactly when `(firstDayOfWeek + i) mod 7` is 0 (Sunday) or 6 (Saturday);
with `firstDayOfWeek = 1` these are the cells of columns 5 and 6; and each of the six
rows holds exactly two weekend cells. -/
theorem C12_weekend_cells (viewDate firstDayOfWeek : ℤ) (selectedDate : Option ℤ)
    (currentDate : ℤ) (h0 : 0 ≤ firstDayOfWeek) (h6 : firstDayOfWeek ≤ 6) :
    (renderDays viewDate firstDayOfWeek selectedDate currentDate).map (fun c => c.isWeekend)
      = (List.range 42).map (fun (i : ℕ) =>
          decide ((firstDayOfWeek + i) % 7 = 0 ∨ (firstDayOfWeek + i) % 7 = 6)) ∧
    (firstDayOfWeek = 1 →
      (renderDays viewDate firstDayOfWeek selectedDate currentDate).map (fun c => c.isWeekend)
        = (List.range 42).map (fun (i : ℕ) => decide (i % 7 = 5 ∨ i % 7 = 6))) ∧
    (∀ row : ℕ, row < 6 →
      ((((renderDays viewDate firstDayOfWeek selectedDate currentDate).map
        (fun c => c.isWeekend)).drop (7 * row)).take 7).count true = 2) := by
  have hf := renderDays_weekend_flags viewDate firstDayOfWeek selectedDate currentDate h0 h6
  refine ⟨?_, ?_, ?_⟩
  · rw [hf]
    apply List.map_congr_left
    intro i _
    simp only [Bool.decide_or]
  · intro h1
    rw [hf, h1]
    apply List.map_congr_left
    intro i _
    rw [← Bool.decide_or, decide_eq_decide]
    omega
  · intro row hrow
    rw [hf]
    interval_cases firstDayOfWeek <;> interval_cases row <;> decide

theorem C12_weekend_cells_witness :
    ((((renderDays 19977 1 none 19977).map (fun c => c.isWeekend)).drop (7 * 0)).take 7)
      = [false, false, false, false, false, true, true] ∧
    ((((renderDays 19977 1 none 19977).map (fun c => c.isWeekend)).drop (7 * 0)).take 7).count
      true = 2 :=
  ⟨by decide, (C12_weekend_cells 19977 1 none 19977 (by decide) (by decide)).2.2 0 (by decide)⟩

/-- C13, counterexample: view date 2024-10-15 (day number 20011), Ethiopian 2017-02-05.
The cells flagged `isCurrentMonth` are the 31 days of October 2024, not 30 cells; the first
of them, 2024-10-01, is the Ethiopian date 2017-01-21, which lies in month 1, not in the
displayed month 2, and is not the first day of an Ethiopian month. -/
theorem C13_counterexample_gregorian_grid :
    gregorianToEthiopian (fieldsOfDay 20011) = { year := 2017, month := 2, day := 5 } ∧
    ((renderDays 20011 0 none 20011).filter (fun c => c.isCurrentMonth)).length = 31 ∧
    ((renderDays 20011 0 none 20011).filter (fun c => c.isCurrentMonth)).head?.map
      (fun c => fieldsOfDay c.currentDate) = some ⟨2024, 9, 1⟩ ∧
    gregorianToEthiopian ⟨2024, 9, 1⟩ = { year := 2017, month := 1, day := 21 } := by
  have h : fieldsOfDay 20011 = ⟨2024, 9, 15⟩ := by decide
  refine ⟨?_, by decide, by decide, ?_⟩
  · rw [h]
    norm_num [gregorianToEthiopian, gregorianToJD, ethiopianToJD]
  · norm_num [gregorianToEthiopian, gregorianToJD, ethiopianToJD]

/-- C13, amended: the grid is the grid of the Gregorian month, whatever the calendar
system, which `renderDays` never reads. For `firstDayOfWeek` in 0..6 and a view year
outside 0..99, the cells flagged `isCurrentMonth` are, in order, the days 1, 2, ... of the
Gregorian month of the view date, 28 to 31 cells. -/
theorem C13_grid_is_gregorian_month (viewDate firstDayOfWeek : ℤ) (selectedDate : Option ℤ)
    (currentDate : ℤ) (h0 : 0 ≤ firstDayOfWeek) (h6 : firstDayOfWeek ≤ 6)
    (hy : yearFromDay viewDate < 0 ∨ 99 < yearFromDay viewDate) :
    ((renderDays viewDate firstDayOfWeek selectedDate currentDate).filter
        (fun c => c.isCurrentMonth)).map (fun c => fieldsOfDay c.currentDate)
      = (List.range (daysInMonth (yearFromDay viewDate) (monthFromDay viewDate + 1)).toNat).map
          (fun (j : ℕ) => ⟨yearFromDay viewDate, monthFromDay viewDate, (j : ℤ) + 1⟩) ∧
    28 ≤ daysInMonth (yearFromDay viewDate) (monthFromDay viewDate + 1) ∧
    daysInMonth (yearFromDay viewDate) (monthFromDay viewDate + 1) ≤ 31 := by
  have hm := monthFromDay_range viewDate
  have hg := gridStart_range viewDate firstDayOfWeek h0 h6
  have hdim := daysInMonth_range (yearFromDay viewDate) (monthFromDay viewDate + 1)
  rw [newDate_of_four_digit _ _ _ hy] at hg
  refine ⟨?_, hdim.1, hdim.2⟩
  generalize hG : gridStart viewDate firstDayOfWeek = G at hg
  generalize hF : makeDay (yearFromDay viewDate) (monthFromDay viewDate) 1 = F at hg
  generalize hn : daysInMonth (yearFromDay viewDate) (monthFromDay viewDate + 1) = n at hdim
  have hflag : ∀ i ∈ List.range 42,
      decide (monthFromDay (G + (i : ℤ)) = monthFromDay viewDate)
        = decide ((F - G).toNat ≤ i ∧ i < (F - G).toNat + n.toNat) := by
    intro i hi
    rw [List.mem_range] at hi
    rw [decide_eq_decide, month_eq_iff_in_month (yearFromDay viewDate) (monthFromDay viewDate)
      (G + i) hm.1 hm.2 (by omega) (by omega), hF, hn]
    omega
  have hfil : (List.range 42).filter (fun (i : ℕ) => decide
      (monthFromDay (G + (i : ℤ)) = monthFromDay viewDate))
      = List.range' (F - G).toNat n.toNat := by
    rw [← filter_range_interval 42 (F - G).toNat n.toNat (by omega)]
    exact List.filter_congr hflag
  rw [renderDays_flagged_days, hG]
  rw [hfil, List.range'_eq_map_range, List.map_map]
  apply List.map_congr_left
  intro j hj
  rw [List.mem_range] at hj
  show fieldsOfDay (G + (((F - G).toNat + j : ℕ) : ℤ)) = _
  have e : G + (((F - G).toNat + j : ℕ) : ℤ)
      = makeDay (yearFromDay viewDate) (monthFromDay viewDate) ((j : ℤ) + 1) := by
    rw [makeDay_date, hF]
    push_cast
    omega
  rw [e]
  exact fieldsOfDay_makeDay _ _ _ ⟨hm.1, hm.2, by dsimp only; omega, by dsimp only; omega⟩

theorem C13_grid_is_gregorian_month_witness :
    ((renderDays 20011 0 none 20011).filter (fun c => c.isCurrentMonth)).map
        (fun c => fieldsOfDay c.currentDate)
      = (List.range (daysInMonth (yearFromDay 20011) (monthFromDay 20011 + 1)).toNat).map
          (fun (j : ℕ) => ⟨yearFromDay 20011, monthFromDay 20011, (j : ℤ) + 1⟩) :=
  (C13_grid_is_gregorian_month 20011 0 none 20011 (by decide) (by decide) (by decide)).1

/-- C14: for every date with a year from 1000 to 9999, `formatDate` with calendar
`gregorian` and the template `yyyy-mm-dd` returns the string of 10 characters made of the
four digits of the year, `-`, the two digits of the month, `-`, the two digits of the day,
in the React text and, for a date that is not null, in the Next.js text;
for 2024-03-15 it is `2024-03-15`. -/
theorem C14_format_gregorian_iso (host : Host) (date : ℤ) (h1 : 1000 ≤ yearFromDay date)
    (h2 : yearFromDay date ≤ 9999) :
    formatDate host "gregorian" "yyyy-mm-dd" date
      = String.mk (digits4 (yearFromDay date) ++ '-' ::
          (digits2 (monthFromDay date + 1) ++ '-' :: digits2 (dateFromDay date))) ∧
    (formatDate host "gregorian" "yyyy-mm-dd" date).length = 10 ∧
    NextPicker.formatDate host "gregorian" "yyyy-mm-dd" (some date)
      = formatDate host "gregorian" "yyyy-mm-dd" date ∧
    formatDate host "gregorian" "yyyy-mm-dd" (newDate 2024 2 15) = "2024-03-15" := by
  have hm := monthFromDay_range date
  have hd := dateFromDay_range date
  have hf : formatDate host "gregorian" "yyyy-mm-dd" date
      = String.mk (digits4 (yearFromDay date) ++ '-' ::
          (digits2 (monthFromDay date + 1) ++ '-' :: digits2 (dateFromDay date))) := by
    unfold formatDate
    rw [if_neg (by decide), if_neg (by decide)]
    simp only [numberToString_intCast]
    rw [toString_four_digits _ h1 h2, padStart_two_digits _ (by omega) (by omega),
      padStart_two_digits _ (by omega) (by omega)]
    unfold replace
    rw [replaceChars_iso _ _ _ (digits4_no_letter _ h2) (digits2_no_letter _ (by omega))]
  refine ⟨hf, ?_, rfl, (formatDate_gregorian host _ _).trans (by decide)⟩
  rw [hf]
  rfl

theorem C14_format_gregorian_iso_witness :
    formatDate utcHost "gregorian" "yyyy-mm-dd" (newDate 1999 11 31) = "1999-12-31" ∧
    (formatDate utcHost "gregorian" "yyyy-mm-dd" (newDate 1999 11 31)).length = 10 :=
  ⟨by decide,
    (C14_format_gregorian_iso utcHost (newDate 1999 11 31) (by decide) (by decide)).2.1⟩

/-- C15, failing input: language `en` (the default table), calendar `ethiopian`, the date
2024-09-10, which is day 5 of the Ethiopian month 13. The table returned by
`getMonthNames` has 12 names, the index `month - 1` is 12, the lookup is `undefined`, and
the text shown is `Tuesday, 5 undefined 2016`. -/
theorem C15_english_table_lacks_month_13 (host : Host)
    (toLocaleDateString : String → ℤ → String) :
    fieldsOfDay (newDate 2024 8 10) = ⟨2024, 8, 10⟩ ∧
    (gregorianToEthiopian (fieldsOfDay (newDate 2024 8 10))).month = 13 ∧
    (∃ names : List String, NextPicker.getMonthNames "en" = JSValue.value names ∧
      names.length = 12) ∧
    getIndex (NextPicker.getMonthNames "en")
      ((gregorianToEthiopian (fieldsOfDay (newDate 2024 8 10))).month - 1) = none ∧
    NextPicker.getDisplayText host toLocaleDateString "ethiopian" "en"
        (some (newDate 2024 8 10))
      = "Tuesday, 5 undefined 2016" := by
  have hf : fieldsOfDay (newDate 2024 8 10) = ⟨2024, 8, 10⟩ := by decide
  have he : gregorianToEthiopian ⟨2024, 8, 10⟩
      = { year := 2016, month := 13, day := ((5 : ℤ) : ℚ) } := by
    norm_num [gregorianToEthiopian, gregorianToJD, ethiopianToJD]
  refine ⟨hf, ?_, ⟨_, rfl, by decide⟩, ?_, ?_⟩
  · rw [hf, he]
  · rw [hf, he]
    decide
  · unfold NextPicker.getDisplayText
    simp only [hf, he, if_true, numberToString_intCast]
    decide

/-- C16, counterexample: the calendar selector `julian` is outside the three supported
ones, yet `formatDate` returns the formatted string `2024-03-15`, the Gregorian one, and
`getCalendarTitle` returns a title, `Modern Calendar`. -/
theorem C16_counterexample_julian :
    formatDate utcHost "julian" "yyyy-mm-dd" (newDate 2024 2 15) = "2024-03-15" ∧
    NextPicker.formatDate utcHost "julian" "yyyy-mm-dd" (some (newDate 2024 2 15))
      = "2024-03-15" ∧
    getCalendarTitle "julian" = JSValue.value "Modern Calendar" := by
  refine ⟨by decide, by decide, by decide⟩

/-- C16, amended: a calendar selector outside `gregorian`, `ethiopian`, `islamic` never
produces a failure. `formatDate` takes its last branch and returns what it returns for
`gregorian`, and `getCalendarTitle` returns the default title `Modern Calendar` (for a
selector that is not the name of a member of `Object.prototype`). -/
theorem C16_unknown_calendar_falls_back (calendar : String) (h1 : calendar ≠ "gregorian")
    (h2 : calendar ≠ "ethiopian") (h3 : calendar ≠ "islamic") :
    (∀ (host : Host) (format : String) (date : ℤ),
      formatDate host calendar format date = formatDate host "gregorian" format date) ∧
    (∀ (host : Host) (format : String) (date : Option ℤ),
      NextPicker.formatDate host calendar format date
        = NextPicker.formatDate host "gregorian" format date) ∧
    (calendar ∉ objectPrototypeKeys →
      getCalendarTitle calendar = JSValue.value "Modern Calendar") := by
  have hf : ∀ (host : Host) (format : String) (date : ℤ),
      formatDate host calendar format date = formatDate host "gregorian" format date := by
    intro host format date
    unfold formatDate
    rw [if_neg h2, if_neg h3, if_neg (by decide), if_neg (by decide)]
  refine ⟨hf, ?_, ?_⟩
  · intro host format date
    cases date with
    | none => rfl
    | some d => exact hf host format d
  · intro h4
    unfold getCalendarTitle
    dsimp only
    rw [getProp_titles_unknown _ _ _ calendar h1 h2 h3 h4]

theorem C16_unknown_calendar_falls_back_witness :
    formatDate utcHost "julian" "dd/mm/yyyy" (newDate 2024 2 15)
      = formatDate utcHost "gregorian" "dd/mm/yyyy" (newDate 2024 2 15) :=
  (C16_unknown_calendar_falls_back "julian" (by decide) (by decide) (by decide)).1
    utcHost "dd/mm/yyyy" (newDate 2024 2 15)

/-- C17: for every date, in every time zone, that is for every time value of the date and
of the epoch and so for every integer day offset `daysDiff` from 622-07-16, negative
offsets included, `gregorianToIslamic` returns a month in 1..12 and a day in 1..30, and
the year is at least 1 exactly when the offset is not negative. -/
theorem C17_islamic_fields_in_range (islamicEpoch date : ℤ) :
    1 ≤ (gregorianToIslamic islamicEpoch date).month ∧
    (gregorianToIslamic islamicEpoch date).month ≤ 12 ∧
    1 ≤ (gregorianToIslamic islamicEpoch date).day ∧
    (gregorianToIslamic islamicEpoch date).day ≤ 30 ∧
    (1 ≤ (gregorianToIslamic islamicEpoch date).year
      ↔ 0 ≤ islamicDaysDiff islamicEpoch date) := by
  rw [gregorianToIslamic_eq]
  dsimp only
  generalize islamicDaysDiff islamicEpoch date = D
  unfold islamicDayOfDiff islamicMonthOfDiff islamicDayOfYear islamicYearOfDiff
  omega

/-- C18, failing input: view date 2024-09-11 (day number 19977; 1 September 2024 is a
Sunday) with `firstDayOfWeek = 8`. The remainder `(0 - 8 + 7) % 7` is -1 in JavaScript,
so the grid starts on 2 September: the first day of the viewed month is in no cell, and
the grid differs from the grid of `firstDayOfWeek = 1`, which starts on 26 August. -/
theorem C18_first_day_of_week_eight :
    fieldsOfDay 19977 = ⟨2024, 8, 11⟩ ∧ (8 : ℤ) % 7 = 1 ∧
    (renderDays 19977 8 none 19977).head?.map (fun c => fieldsOfDay c.currentDate)
      = some ⟨2024, 8, 2⟩ ∧
    ((renderDays 19977 8 none 19977).map (fun c => fieldsOfDay c.currentDate)).count
      ⟨2024, 8, 1⟩ = 0 ∧
    (renderDays 19977 1 none 19977).head?.map (fun c => fieldsOfDay c.currentDate)
      = some ⟨2024, 7, 26⟩ ∧
    renderDays 19977 8 none 19977 ≠ renderDays 19977 1 none 19977 := by
  refine ⟨by decide, by decide, by decide, by decide, by decide, by decide⟩

/-- C19, counterexample: in a host in UTC, the days 1062 and 1063 days after 622-07-16,
which are 625-06-12 and 625-06-13. The later day gets the Islamic date (3, 12, 1), which is
before the date (3, 12, 30) of the earlier day and is also the date of the day at offset
1033. And in a host in America/New_York, where local midnight of 622-07-16 is 04:56:02 UTC
(local mean time), local midnight of 2024-03-10 is 05:00 UTC and local midnight of
2024-03-11, after the change to daylight time, is 04:00 UTC: the two days are 23 hours
apart, both get the day offset 511943 and share the Islamic date (1445, 8, 27). -/
theorem C19_counterexample_month_clamp :
    newDate 625 5 12 = newDate 622 6 16 + 1062 ∧ newDate 625 5 13 = newDate 622 6 16 + 1063 ∧
    gregorianToIslamic utcHost.islamicEpoch (utcHost.timeValue (newDate 625 5 12))
      = ⟨3, 12, 30⟩ ∧
    gregorianToIslamic utcHost.islamicEpoch (utcHost.timeValue (newDate 625 5 13))
      = ⟨3, 12, 1⟩ ∧
    gregorianToIslamic utcHost.islamicEpoch (utcHost.timeValue (newDate 622 6 16 + 1033))
      = ⟨3, 12, 1⟩ ∧
    ¬ (gregorianToIslamic utcHost.islamicEpoch (utcHost.timeValue (newDate 625 5 12))).earlier
        (gregorianToIslamic utcHost.islamicEpoch (utcHost.timeValue (newDate 625 5 13))) ∧
    islamicDaysDiff (newDate 622 6 16 * 86400000 + 17762000)
      (newDate 2024 2 10 * 86400000 + 18000000) = 511943 ∧
    islamicDaysDiff (newDate 622 6 16 * 86400000 + 17762000)
      (newDate 2024 2 11 * 86400000 + 14400000) = 511943 ∧
    gregorianToIslamic (newDate 622 6 16 * 86400000 + 17762000)
      (newDate 2024 2 10 * 86400000 + 18000000) = ⟨1445, 8, 27⟩ ∧
    gregorianToIslamic (newDate 622 6 16 * 86400000 + 17762000)
      (newDate 2024 2 11 * 86400000 + 14400000) = ⟨1445, 8, 27⟩ := by
  simp only [gregorianToIslamic_eq]
  decide

/-- C19, amended: `gregorianToIslamic` depends on the two time values only through the
whole-day offset `daysDiff`. For two instants `a` not after `b`, whatever the time value of
the epoch: the Islamic year never steps backwards; the Islamic date of `b` is not earlier
than the one of `a` unless the month computed for `b` is cut down by
`Math.min(islamicMonth, 12)`; it is strictly later when moreover the offsets `daysDiff` of
`a` and `b` differ, which they do when `b` is at least 24 hours after `a`. Instants with
the same offset get the same Islamic date. -/
theorem C19_islamic_order_without_clamp :
    (∀ islamicEpoch a b : ℤ, a ≤ b →
      (gregorianToIslamic islamicEpoch a).year ≤ (gregorianToIslamic islamicEpoch b).year) ∧
    (∀ islamicEpoch a b : ℤ, a ≤ b →
      islamicMonthOfDiff (islamicDaysDiff islamicEpoch b) ≤ 12 →
      ¬ (gregorianToIslamic islamicEpoch b).earlier (gregorianToIslamic islamicEpoch a)) ∧
    (∀ islamicEpoch a b : ℤ,
      islamicDaysDiff islamicEpoch a < islamicDaysDiff islamicEpoch b →
      islamicMonthOfDiff (islamicDaysDiff islamicEpoch b) ≤ 12 →
      (gregorianToIslamic islamicEpoch a).earlier (gregorianToIslamic islamicEpoch b)) ∧
    (∀ islamicEpoch a b : ℤ, a + 86400000 ≤ b →
      islamicDaysDiff islamicEpoch a < islamicDaysDiff islamicEpoch b) ∧
    (∀ islamicEpoch a b : ℤ,
      islamicDaysDiff islamicEpoch a = islamicDaysDiff islamicEpoch b →
      gregorianToIslamic islamicEpoch a = gregorianToIslamic islamicEpoch b) := by
  refine ⟨?_, ?_, ?_, ?_, ?_⟩
  · intro e a b hab
    have hd := (islamicDaysDiff_mono e a b).1 hab
    rw [gregorianToIslamic_eq, gregorianToIslamic_eq]
    dsimp only
    unfold islamicYearOfDiff
    omega
  · intro e a b hab hb
    have hd := (islamicDaysDiff_mono e a b).1 hab
    rw [gregorianToIslamic_eq, gregorianToIslamic_eq]
    rcases lt_or_eq_of_le hd with h | h
    · exact IslamicDate.earlier_asymm _ _ (islamic_earlier_of_diff_lt _ _ h hb)
    · rw [h]
      unfold IslamicDate.earlier
      omega
  · intro e a b hd hb
    rw [gregorianToIslamic_eq, gregorianToIslamic_eq]
    exact islamic_earlier_of_diff_lt _ _ hd hb
  · intro e a b hab
    exact (islamicDaysDiff_mono e a b).2 hab
  · intro e a b h
    rw [gregorianToIslamic_eq, gregorianToIslamic_eq, h]

theorem C19_islamic_order_without_clamp_witness :
    (gregorianToIslamic utcHost.islamicEpoch (utcHost.timeValue (newDate 625 5 11))).earlier
      (gregorianToIslamic utcHost.islamicEpoch (utcHost.timeValue (newDate 625 5 12))) :=
  C19_islamic_order_without_clamp.2.2.1 utcHost.islamicEpoch
    (utcHost.timeValue (newDate 625 5 11)) (utcHost.timeValue (newDate 625 5 12))
    (by decide) (by decide)

/-- C20: for every valid Gregorian date of a year `G` from 1901 to 2099, the year returned
by `gregorianToEthiopian` is `G - 7` on or after Ethiopian new year (11 September, or 12
September when `G + 1` is divisible by 4) and `G - 8` before it; so the year `G - 7` that
`formatEthiopianDate` of ModernCalendar.js shows is the exact year only from new year to
31 December. -/
theorem C20_ethiopian_year_offset (g : JSDate) (hv : validGregorian g)
    (h1 : 1901 ≤ g.getFullYear) (h2 : g.getFullYear ≤ 2099) :
    (gregorianToEthiopian g).year
      = (if onOrAfterNewYear g then g.getFullYear - 7 else g.getFullYear - 8) ∧
    (NextCalendar.ethiopianYear g = (gregorianToEthiopian g).year ↔ onOrAfterNewYear g) := by
  have hy := ethYear_1901_2099 g hv h1 h2
  have he : (gregorianToEthiopian g).year
      = (if onOrAfterNewYear g then g.getFullYear - 7 else g.getFullYear - 8) := by
    rw [gregorianToEthiopian_eq]
    dsimp only
    rw [hy]
    split_ifs <;> omega
  refine ⟨he, ?_⟩
  rw [he]
  unfold NextCalendar.ethiopianYear
  dsimp only
  split_ifs with h
  · exact ⟨fun _ => h, fun _ => rfl⟩
  · constructor
    · intro h3
      omega
    · intro h3
      exact absurd h3 h

theorem C20_ethiopian_year_offset_witness :
    (gregorianToEthiopian ⟨2024, 8, 10⟩).year
      = (if onOrAfterNewYear ⟨2024, 8, 10⟩ then (2024 : ℤ) - 7 else 2024 - 8) :=
  (C20_ethiopian_year_offset ⟨2024, 8, 10⟩ (by decide) (by decide) (by decide)).1

/-- C21, failing input: the view date 15 January 2024 with the calendar `ethiopian`.
The `formatEthiopianDate` of the Next.js ModernCalendar reads the table of the 13 Ethiopian
month names at the Gregorian month index `getMonth()`, which is 0, and takes the year
2024 - 7: its title is the first Ethiopian month of 2017. The conversion gives month 5 of
year 2016, and the function of the same name in the React ModernCalendar builds the title
of that month and year; the two titles differ. -/
theorem C21_next_title_january_2024 :
    NextCalendar.formatEthiopianDate ⟨2024, 0, 15⟩ = "መስከረም 2017" ∧
    ReactCalendar.formatEthiopianDate ⟨2024, 0, 15⟩ = "ጥር 2016" ∧
    (gregorianToEthiopian ⟨2024, 0, 15⟩).year = 2016 ∧
    (gregorianToEthiopian ⟨2024, 0, 15⟩).month = 5 ∧
    NextCalendar.formatEthiopianDate ⟨2024, 0, 15⟩
      ≠ ReactCalendar.formatEthiopianDate ⟨2024, 0, 15⟩ := by
  have he : gregorianToEthiopian ⟨2024, 0, 15⟩
      = { year := 2016, month := 5, day := ((6 : ℤ) : ℚ) } := by
    norm_num [gregorianToEthiopian, gregorianToJD, ethiopianToJD]
  have hn : NextCalendar.formatEthiopianDate ⟨2024, 0, 15⟩ = "መስከረም 2017" := by
    simp only [NextCalendar.formatEthiopianDate, NextCalendar.ethiopianYear,
      numberToString_intCast]
    decide
  have hr : ReactCalendar.formatEthiopianDate ⟨2024, 0, 15⟩ = "ጥር 2016" := by
    simp only [ReactCalendar.formatEthiopianDate, he, numberToString_intCast]
    decide
  refine ⟨hn, hr, ?_, ?_, ?_⟩
  · rw [he]
  · rw [he]
  · rw [hn, hr]
    decide

/-- C22, failing input: the view date 31 January 2024. `setMonth(1)` keeps the day 31, and
31 February is carried to 2 March: `nextMonth` shows March, not February, and
`previousMonth` after it shows February, not January. From 31 March 2024, `previousMonth`
stays in March. -/
theorem C22_month_end_overflow :
    fieldsOfDay (makeDay 2024 0 31) = ⟨2024, 0, 31⟩ ∧
    fieldsOfDay (nextMonth (makeDay 2024 0 31)) = ⟨2024, 2, 2⟩ ∧
    followingMonth (viewMonth (makeDay 2024 0 31)) = (2024, 1) ∧
    viewMonth (nextMonth (makeDay 2024 0 31)) = (2024, 2) ∧
    viewMonth (previousMonth (nextMonth (makeDay 2024 0 31))) = (2024, 1) ∧
    fieldsOfDay (previousMonth (makeDay 2024 2 31)) = ⟨2024, 2, 2⟩ := by
  refine ⟨by decide, by decide, by decide, by decide, by decide, by decide⟩

/-- C23, failing input: the language `or`, the value of the Oromo option of the language
selector. The tables of the Oromo names are stored under the key `oro`, so the lookup of
`or` finds nothing and `getMonthNames` and `getDayNames` return the English tables. -/
theorem C23_oromo_option_gets_english :
    App.languages.map Prod.fst = ["en", "am", "or"] ∧
    App.languages.lookup "or" = some "Oromo" ∧
    getProp ReactCalendar.monthNames "or" = none ∧
    getProp ReactCalendar.dayNames "or" = none ∧
    ReactCalendar.getMonthNames "or" = ReactCalendar.getMonthNames "en" ∧
    ReactCalendar.getDayNames "or" = ReactCalendar.getDayNames "en" ∧
    getIndex (ReactCalendar.getMonthNames "or") 0 = some "January" ∧
    getIndex (ReactCalendar.getMonthNames "oro") 0 = some "Fuulbaana" ∧
    getIndex (ReactCalendar.getDayNames "or") 0 = some "Sun" ∧
    getIndex (ReactCalendar.getDayNames "oro") 0 = some "Wiixata" ∧
    getProp ReactCalendar.monthNames "en"
      = some (JSValue.value ((ReactCalendar.monthNames.lookup "en").getD [])) ∧
    getIndex (ReactCalendar.getMonthNames "am") 0 = some "መስከረም" := by
  refine ⟨by decide, by decide, by decide, by decide, by decide, by decide, by decide,
    by decide, by decide, by decide, by decide, by decide⟩

end ModernCal
